import Mathlib

/-!
Verification of the rmm-tracker collection engine against its specification.

This file gives a shallow embedding, in Lean 4, of the parts of the Go
source that the specification's claims are about:

* the numeric codec `HumanBalance` (internal/blockchain/client.go),
* the retry engine `retryWithBackoff` (same file),
* the failover pool `GetClient` / `MarkUnhealthy` (internal/blockchain/failover.go),
* the token query client `GetTokenBalance` (internal/blockchain/token.go),
* the batch persistence `BatchInsertBalances` (internal/storage/postgres.go),
* the tick executor `processAllWallets` (cmd/run.go),
* the schedule handling `durationToCron` / `ValidateScheduleInterval`
  (internal/scheduler/scheduler.go),
* the configuration validation rules (internal/config/config.go).

Machine integers of the source become `Nat` (all quantities involved are
non-negative: `raw_balance` is a non-negative big integer, durations are
non-negative nanosecond counts, times are non-negative millisecond counts).
Side-effecting code becomes explicit state passing; the outcomes of external
calls (RPC calls, row execution on the database wire, context cancellation)
are inputs of the model, so every behaviour of the environment is quantified
over.  Fallible code returns `Option` or `Except`.
-/

namespace RmmTracker

instance {ε α : Type} [DecidableEq ε] [DecidableEq α] : DecidableEq (Except ε α) := fun a b =>
  match a, b with
  | .ok x, .ok y =>
    if h : x = y then isTrue (by rw [h]) else isFalse (fun hh => by injection hh; contradiction)
  | .error x, .error y =>
    if h : x = y then isTrue (by rw [h]) else isFalse (fun hh => by injection hh; contradiction)
  | .ok _, .error _ => isFalse (fun hh => Except.noConfusion hh)
  | .error _, .ok _ => isFalse (fun hh => Except.noConfusion hh)

/-! ## Decimal digit strings

`big.Int.String()` renders a non-negative integer in standard decimal
notation.  `natChars` renders the digits big-endian (`fuel` bounds the
recursion; every call site passes `n + 1`, which always suffices since a
number has at most as many digits as its value). -/

def natChars : Nat → Nat → List Char
  | 0, _ => []
  | fuel + 1, n => if n = 0 then [] else natChars fuel (n / 10) ++ [Nat.digitChar (n % 10)]

/-- Decimal rendering of a natural number, as `big.Int.String()` produces it:
"0" for zero, otherwise the big-endian digits with no leading zero. -/
def natDecimal (n : Nat) : List Char :=
  if n = 0 then ['0'] else natChars (n + 1) n

/-! ## A reference decimal parser

The specification's round-trip property speaks of "the output parsed as a
decimal".  `parseDecimal` is that reference parser: it reads a string of
the shape `digits` or `digits.digits` and returns `(n, k)` such that the
decimal value equals `n / 10 ^ k`. -/

def digitVal? (c : Char) : Option Nat :=
  if '0' ≤ c ∧ c ≤ '9' then some (c.toNat - '0'.toNat) else none

def parseDigitsAux (acc : Nat) : List Char → Option Nat
  | [] => some acc
  | c :: cs =>
    match digitVal? c with
    | some d => parseDigitsAux (acc * 10 + d) cs
    | none => none

def parseDigits (l : List Char) : Option Nat :=
  if l = [] then none else parseDigitsAux 0 l

/-- Splits a character list at the first dot: returns the part before it and,
if a dot occurs, the part after it. -/
def splitAtDot : List Char → List Char × Option (List Char)
  | [] => ([], none)
  | c :: cs =>
    if c = '.' then ([], some cs)
    else (c :: (splitAtDot cs).1, (splitAtDot cs).2)

/-- Parses a decimal string into `(n, k)` with value `n / 10 ^ k`; the
fractional part must be non-empty and contain no further dot. -/
def parseDecimal (s : String) : Option (Nat × Nat) :=
  match splitAtDot s.data with
  | (ip, none) => (parseDigits ip).map (fun v => (v, 0))
  | (ip, some fp) =>
    if '.' ∈ fp then none
    else
      match parseDigits ip, parseDigits fp with
      | some a, some b => some (a * 10 ^ fp.length + b, fp.length)
      | _, _ => none

/-! ## The numeric codec `HumanBalance`

Embeds `HumanBalance` (internal/blockchain/client.go):

```
if rawBalance.Sign() == 0 { return "0" }
divisor := 10^decimals
intPart := rawBalance / divisor ; remainder := rawBalance mod divisor
if remainder.Sign() == 0 { return intPart.String() }
fracStr := fmt.Sprintf("%0*s", int(decimals), remainder.String())
fracStr = strings.TrimRight(fracStr, "0")
return intPart.String() + "." + fracStr
```

`fmt.Sprintf("%0*s", w, s)` left-pads `s` with `'0'` to width `w`;
`strings.TrimRight(s, "0")` removes every trailing `'0'`. -/

def padLeftZeros (width : Nat) (l : List Char) : List Char :=
  List.replicate (width - l.length) '0' ++ l

def trimTrailingZeros (l : List Char) : List Char :=
  (l.reverse.dropWhile (fun c => c == '0')).reverse

def HumanBalance (raw : Nat) (decimals : Nat) : String :=
  if raw = 0 then "0"
  else
    let divisor := 10 ^ decimals
    let intPart := raw / divisor
    let remainder := raw % divisor
    if remainder = 0 then ⟨natDecimal intPart⟩
    else ⟨natDecimal intPart ++ '.' :: trimTrailingZeros (padLeftZeros decimals (natDecimal remainder))⟩

/-! ## Lemmas about decimal rendering and parsing -/

theorem parseDigitsAux_append (l₁ l₂ : List Char) (acc : Nat) :
    parseDigitsAux acc (l₁ ++ l₂) =
      (parseDigitsAux acc l₁).bind (fun a => parseDigitsAux a l₂) := by
  induction l₁ generalizing acc with
  | nil => simp [parseDigitsAux]
  | cons c cs ih =>
    simp only [List.cons_append, parseDigitsAux]
    cases digitVal? c with
    | none => simp
    | some d => simp [ih]

theorem digitVal?_digitChar {d : Nat} (h : d < 10) : digitVal? (Nat.digitChar d) = some d := by
  interval_cases d <;> decide

theorem digitChar_ne_dot {d : Nat} (h : d < 10) : Nat.digitChar d ≠ '.' := by
  interval_cases d <;> decide

theorem parseDigitsAux_natChars :
    ∀ fuel n acc : Nat, n ≤ fuel →
      parseDigitsAux acc (natChars fuel n) = some (acc * 10 ^ (natChars fuel n).length + n) := by
  intro fuel
  induction fuel with
  | zero =>
    intro n acc h
    interval_cases n
    simp [natChars, parseDigitsAux]
  | succ fuel ih =>
    intro n acc h
    by_cases h0 : n = 0
    · subst h0; simp [natChars, parseDigitsAux]
    · have hrec : n / 10 ≤ fuel := by omega
      have hd : n % 10 < 10 := Nat.mod_lt _ (by omega)
      have hnm := Nat.div_add_mod n 10
      simp only [natChars, if_neg h0]
      rw [parseDigitsAux_append, ih (n / 10) acc hrec]
      simp only [Option.some_bind, parseDigitsAux, digitVal?_digitChar hd,
        List.length_append, List.length_cons, List.length_nil]
      rw [pow_succ]
      obtain ⟨q, r, hq, hr, hqr⟩ : ∃ q r, n / 10 = q ∧ n % 10 = r ∧ 10 * q + r = n :=
        ⟨n / 10, n % 10, rfl, rfl, hnm⟩
      rw [hq, hr, ← hqr]
      ring_nf

theorem natChars_all_digitChar :
    ∀ fuel n : Nat, ∀ c ∈ natChars fuel n, ∃ d, d < 10 ∧ c = Nat.digitChar d := by
  intro fuel
  induction fuel with
  | zero => intro n c hc; simp [natChars] at hc
  | succ fuel ih =>
    intro n c hc
    by_cases h0 : n = 0
    · subst h0; simp [natChars] at hc
    · simp only [natChars, if_neg h0, List.mem_append, List.mem_cons, List.not_mem_nil,
        or_false] at hc
      rcases hc with hc | hc
      · exact ih _ _ hc
      · exact ⟨n % 10, Nat.mod_lt _ (by omega), hc⟩

theorem natChars_length_le :
    ∀ fuel n k : Nat, n ≤ fuel → n < 10 ^ k → (natChars fuel n).length ≤ k := by
  intro fuel
  induction fuel with
  | zero =>
    intro n k h hk
    interval_cases n
    simp [natChars]
  | succ fuel ih =>
    intro n k h hk
    by_cases h0 : n = 0
    · subst h0; simp [natChars]
    · cases k with
      | zero => simp at hk; omega
      | succ k =>
        have hrec : n / 10 ≤ fuel := by omega
        have hdiv : n / 10 < 10 ^ k := by
          apply Nat.div_lt_of_lt_mul
          calc n < 10 ^ (k + 1) := hk
            _ = 10 * 10 ^ k := by rw [pow_succ]; ring
        have := ih (n / 10) k hrec hdiv
        simp only [natChars, if_neg h0, List.length_append, List.length_cons, List.length_nil]
        omega

theorem natDecimal_ne_nil (n : Nat) : natDecimal n ≠ [] := by
  unfold natDecimal
  split
  · simp
  · rename_i h0
    simp [natChars, h0]

theorem parseDigits_natDecimal (n : Nat) : parseDigits (natDecimal n) = some n := by
  by_cases h0 : n = 0
  · subst h0; decide
  · unfold parseDigits
    rw [if_neg (natDecimal_ne_nil n)]
    unfold natDecimal
    rw [if_neg h0]
    rw [parseDigitsAux_natChars (n + 1) n 0 (by omega)]
    simp

theorem dot_not_mem_natDecimal (n : Nat) : ('.' : Char) ∉ natDecimal n := by
  unfold natDecimal
  split
  · decide
  · intro hc
    obtain ⟨d, hd, he⟩ := natChars_all_digitChar _ _ _ hc
    exact digitChar_ne_dot hd he.symm

theorem natDecimal_length_le {n k : Nat} (h0 : n ≠ 0) (h : n < 10 ^ k) :
    (natDecimal n).length ≤ k := by
  unfold natDecimal
  rw [if_neg h0]
  exact natChars_length_le (n + 1) n k (by omega) h

theorem parseDigitsAux_replicate_zero :
    ∀ k acc : Nat, parseDigitsAux acc (List.replicate k '0') = some (acc * 10 ^ k) := by
  intro k
  induction k with
  | zero => intro acc; simp [parseDigitsAux]
  | succ k ih =>
    intro acc
    rw [List.replicate_succ]
    have hz : digitVal? '0' = some 0 := by decide
    show parseDigitsAux acc ('0' :: List.replicate k '0') = _
    simp only [parseDigitsAux, hz]
    rw [ih]
    congr 1
    rw [pow_succ]
    ring

theorem parseDigitsAux_pad (w : Nat) (l : List Char) :
    parseDigitsAux 0 (padLeftZeros w l) = parseDigitsAux 0 l := by
  unfold padLeftZeros
  rw [parseDigitsAux_append, parseDigitsAux_replicate_zero]
  simp

theorem padLeftZeros_length {w : Nat} {l : List Char} (h : l.length ≤ w) :
    (padLeftZeros w l).length = w := by
  simp only [padLeftZeros, List.length_append, List.length_replicate]
  omega

theorem trimTrailingZeros_append_zeros (l : List Char) :
    ∃ k, l = trimTrailingZeros l ++ List.replicate k '0' := by
  refine ⟨(l.reverse.takeWhile (fun c => c == '0')).length, ?_⟩
  have htd := List.takeWhile_append_dropWhile (p := fun c => c == '0') (l := l.reverse)
  have hrepl : l.reverse.takeWhile (fun c => c == '0')
      = List.replicate (l.reverse.takeWhile (fun c => c == '0')).length '0' := by
    apply List.eq_replicate_of_mem
    intro b hb
    have hpb := List.mem_takeWhile_imp hb
    simpa using hpb
  have hrev : (l.reverse.takeWhile (fun c => c == '0')).reverse
      = List.replicate (l.reverse.takeWhile (fun c => c == '0')).length '0' := by
    conv_lhs => rw [hrepl]
    exact List.reverse_replicate _ _
  show l = (l.reverse.dropWhile (fun c => c == '0')).reverse ++ _
  rw [← hrev, ← List.reverse_append, htd, List.reverse_reverse]

theorem head?_dropWhile_false {p : Char → Bool} :
    ∀ (l : List Char) {a : Char}, (l.dropWhile p).head? = some a → p a = false := by
  intro l
  induction l with
  | nil => intro a h; simp [List.dropWhile] at h
  | cons c cs ih =>
    intro a h
    rw [List.dropWhile_cons] at h
    by_cases hc : p c = true
    · rw [if_pos hc] at h
      exact ih h
    · rw [if_neg hc] at h
      simp at h
      subst h
      simpa using hc

theorem trimTrailingZeros_getLast_ne_zero {l : List Char} {c : Char}
    (h : (trimTrailingZeros l).getLast? = some c) : c ≠ '0' := by
  unfold trimTrailingZeros at h
  rw [List.getLast?_eq_head?_reverse, List.reverse_reverse] at h
  have := head?_dropWhile_false _ h
  simpa using this

theorem splitAtDot_of_not_mem {l : List Char} (h : ('.' : Char) ∉ l) :
    splitAtDot l = (l, none) := by
  induction l with
  | nil => rfl
  | cons c cs ih =>
    simp only [List.mem_cons, not_or] at h
    simp only [splitAtDot, if_neg (Ne.symm h.1), ih h.2]

theorem splitAtDot_append {l₁ l₂ : List Char} (h : ('.' : Char) ∉ l₁) :
    splitAtDot (l₁ ++ '.' :: l₂) = (l₁, some l₂) := by
  induction l₁ with
  | nil => simp [splitAtDot]
  | cons c cs ih =>
    simp only [List.mem_cons, not_or] at h
    simp only [List.cons_append, splitAtDot, if_neg (Ne.symm h.1), List.append_eq, ih h.2]

theorem parseDecimal_natDecimal (n : Nat) : parseDecimal ⟨natDecimal n⟩ = some (n, 0) := by
  unfold parseDecimal
  rw [show (⟨natDecimal n⟩ : String).data = natDecimal n from rfl]
  rw [splitAtDot_of_not_mem (dot_not_mem_natDecimal n)]
  simp [parseDigits_natDecimal]

theorem parseDigitsAux_natDecimal (n : Nat) : parseDigitsAux 0 (natDecimal n) = some n := by
  have h := parseDigits_natDecimal n
  unfold parseDigits at h
  rwa [if_neg (natDecimal_ne_nil n)] at h

/-- Everything the round-trip argument needs about the trimmed, padded
fractional block produced for a non-zero remainder `r < 10 ^ d`. -/
theorem frac_block {d r : Nat} (h1 : r ≠ 0) (h2 : r < 10 ^ d) :
    (padLeftZeros d (natDecimal r)).length = d
    ∧ trimTrailingZeros (padLeftZeros d (natDecimal r)) ≠ []
    ∧ (trimTrailingZeros (padLeftZeros d (natDecimal r))).length ≤ d
    ∧ ('.' : Char) ∉ trimTrailingZeros (padLeftZeros d (natDecimal r))
    ∧ (∀ c, (trimTrailingZeros (padLeftZeros d (natDecimal r))).getLast? = some c → c ≠ '0')
    ∧ ∃ b, parseDigits (trimTrailingZeros (padLeftZeros d (natDecimal r))) = some b
        ∧ b * 10 ^ (d - (trimTrailingZeros (padLeftZeros d (natDecimal r))).length) = r := by
  set fr := padLeftZeros d (natDecimal r) with hfr
  set tr := trimTrailingZeros fr with htr
  have hlen : fr.length = d := padLeftZeros_length (natDecimal_length_le h1 h2)
  have hparse_fr : parseDigitsAux 0 fr = some r := by
    rw [hfr, parseDigitsAux_pad, parseDigitsAux_natDecimal]
  obtain ⟨k0, hk0⟩ := trimTrailingZeros_append_zeros fr
  rw [← htr] at hk0
  have hsplit : parseDigitsAux 0 fr
      = (parseDigitsAux 0 tr).bind (fun a => parseDigitsAux a (List.replicate k0 '0')) := by
    conv_lhs => rw [hk0]
    exact parseDigitsAux_append _ _ _
  obtain ⟨b, hb, hbr⟩ : ∃ b, parseDigitsAux 0 tr = some b ∧ b * 10 ^ k0 = r := by
    rcases hcase : parseDigitsAux 0 tr with _ | b
    · rw [hparse_fr, hcase] at hsplit; simp at hsplit
    · rw [hparse_fr, hcase] at hsplit
      simp only [Option.some_bind, parseDigitsAux_replicate_zero] at hsplit
      exact ⟨b, rfl, by injection hsplit with h; omega⟩
  have htr_ne : tr ≠ [] := by
    intro hnil
    rw [hnil] at hb
    simp only [parseDigitsAux, Option.some.injEq] at hb
    rw [← hb] at hbr
    simp only [Nat.zero_mul] at hbr
    exact h1 hbr.symm
  have hlens : tr.length + k0 = d := by
    have := congrArg List.length hk0
    simp only [List.length_append, List.length_replicate] at this
    omega
  refine ⟨hlen, htr_ne, by omega, ?_, ?_, b, ?_, ?_⟩
  · intro hdot
    have hmem : ('.' : Char) ∈ fr := by
      rw [hk0]; exact List.mem_append_left _ hdot
    rw [hfr] at hmem
    unfold padLeftZeros at hmem
    rcases List.mem_append.mp hmem with hx | hx
    · have := List.eq_of_mem_replicate hx; exact absurd this (by decide)
    · exact dot_not_mem_natDecimal r hx
  · intro c hc
    exact trimTrailingZeros_getLast_ne_zero hc
  · unfold parseDigits
    rw [if_neg htr_ne]
    exact hb
  · have : d - tr.length = k0 := by omega
    rw [this]
    exact hbr

/-- C1.  `HumanBalance raw d` returns "0" when `raw = 0`, the decimal
rendering of `raw / 10^d` when `10^d` divides `raw`, and otherwise
`"<int_part>.<frac_trimmed>"` where the fractional block is `raw mod 10^d`
written with exactly `d` digits and stripped of trailing zeros; parsing the
output as a decimal and multiplying by `10^d` recovers `raw`, the output
never ends in a trailing zero after a decimal point, and the boundary cases
`(1, 18) ↦ "0.000000000000000001"`, `(10^18, 18) ↦ "1"` and
`(100, 0) ↦ "100"` hold. -/
theorem humanBalance_spec (raw d : Nat) :
    (raw = 0 → HumanBalance raw d = "0")
    ∧ (raw ≠ 0 → raw % 10 ^ d = 0 → HumanBalance raw d = ⟨natDecimal (raw / 10 ^ d)⟩)
    ∧ (raw ≠ 0 → raw % 10 ^ d ≠ 0 →
        HumanBalance raw d =
          ⟨natDecimal (raw / 10 ^ d) ++ '.' ::
            trimTrailingZeros (padLeftZeros d (natDecimal (raw % 10 ^ d)))⟩
        ∧ (padLeftZeros d (natDecimal (raw % 10 ^ d))).length = d)
    ∧ (∃ n k, parseDecimal (HumanBalance raw d) = some (n, k) ∧ k ≤ d ∧ n * 10 ^ (d - k) = raw)
    ∧ ('.' ∈ (HumanBalance raw d).data → (HumanBalance raw d).data.getLast? ≠ some '0')
    ∧ HumanBalance 1 18 = "0.000000000000000001"
    ∧ HumanBalance (10 ^ 18) 18 = "1"
    ∧ HumanBalance 100 0 = "100" := by
  have hb1 : HumanBalance 1 18 = "0.000000000000000001" := by decide
  have hb2 : HumanBalance (10 ^ 18) 18 = "1" := by decide
  have hb3 : HumanBalance 100 0 = "100" := by decide
  have hzero : raw = 0 → HumanBalance raw d = "0" := by
    intro h; simp [HumanBalance, h]
  have hdiv : raw ≠ 0 → raw % 10 ^ d = 0 →
      HumanBalance raw d = ⟨natDecimal (raw / 10 ^ d)⟩ := by
    intro h0 hr; simp [HumanBalance, h0, hr]
  have hform : raw ≠ 0 → raw % 10 ^ d ≠ 0 →
      HumanBalance raw d =
        ⟨natDecimal (raw / 10 ^ d) ++ '.' ::
          trimTrailingZeros (padLeftZeros d (natDecimal (raw % 10 ^ d)))⟩ := by
    intro h0 hr; simp [HumanBalance, h0, hr]
  by_cases h0 : raw = 0
  · subst h0
    refine ⟨hzero, fun h => absurd rfl h, fun h => absurd rfl h, ?_, ?_, hb1, hb2, hb3⟩
    · refine ⟨0, 0, ?_, Nat.zero_le d, by ring⟩
      rw [hzero rfl]
      decide
    · rw [hzero rfl]
      intro h
      simp [String.data] at h
  · by_cases hr : raw % 10 ^ d = 0
    · have hout := hdiv h0 hr
      refine ⟨hzero, hdiv, fun _ hc => absurd hr hc, ?_, ?_, hb1, hb2, hb3⟩
      · refine ⟨raw / 10 ^ d, 0, ?_, Nat.zero_le d, ?_⟩
        · rw [hout]; exact parseDecimal_natDecimal _
        · rw [Nat.sub_zero]
          exact Nat.div_mul_cancel (Nat.dvd_of_mod_eq_zero hr)
      · rw [hout]
        intro h
        exact absurd h (dot_not_mem_natDecimal _)
    · have hrlt : raw % 10 ^ d < 10 ^ d := Nat.mod_lt _ (Nat.pos_pow_of_pos d (by omega))
      obtain ⟨hpadlen, htrne, htrlen, hnodot, hlast, b, hparseb, hbr⟩ := frac_block hr hrlt
      have hout := hform h0 hr
      refine ⟨hzero, hdiv, fun _ _ => ⟨hout, hpadlen⟩, ?_, ?_, hb1, hb2, hb3⟩
      · refine ⟨raw / 10 ^ d * 10 ^ (trimTrailingZeros (padLeftZeros d (natDecimal (raw % 10 ^ d)))).length + b,
          (trimTrailingZeros (padLeftZeros d (natDecimal (raw % 10 ^ d)))).length, ?_, htrlen, ?_⟩
        · rw [hout]
          unfold parseDecimal
          rw [show (⟨natDecimal (raw / 10 ^ d) ++ '.' ::
              trimTrailingZeros (padLeftZeros d (natDecimal (raw % 10 ^ d)))⟩ : String).data
            = natDecimal (raw / 10 ^ d) ++ '.' ::
              trimTrailingZeros (padLeftZeros d (natDecimal (raw % 10 ^ d))) from rfl]
          rw [splitAtDot_append (dot_not_mem_natDecimal _)]
          simp only [if_neg hnodot]
          rw [parseDigits_natDecimal, hparseb]
        · set k := (trimTrailingZeros (padLeftZeros d (natDecimal (raw % 10 ^ d)))).length
          have hpow : 10 ^ k * 10 ^ (d - k) = 10 ^ d := by
            rw [← pow_add]; congr 1; omega
          calc (raw / 10 ^ d * 10 ^ k + b) * 10 ^ (d - k)
              = raw / 10 ^ d * (10 ^ k * 10 ^ (d - k)) + b * 10 ^ (d - k) := by ring
            _ = raw / 10 ^ d * 10 ^ d + raw % 10 ^ d := by rw [hpow, hbr]
            _ = raw := by rw [mul_comm]; exact Nat.div_add_mod raw (10 ^ d)
      · rw [hout]
        intro _
        rw [show (⟨natDecimal (raw / 10 ^ d) ++ '.' ::
            trimTrailingZeros (padLeftZeros d (natDecimal (raw % 10 ^ d)))⟩ : String).data
          = natDecimal (raw / 10 ^ d) ++ '.' ::
            trimTrailingZeros (padLeftZeros d (natDecimal (raw % 10 ^ d))) from rfl]
        rw [List.append_cons]
        rw [List.getLast?_append_of_ne_nil _ htrne]
        intro hc
        exact hlast '0' hc rfl

/-- Witness for `humanBalance_spec`: its hypotheses are satisfiable, shown at
`raw = 15`, `d = 1` (the happy-path example `balance = "1.5"`). -/
theorem humanBalance_spec_witness :
    (15 : Nat) ≠ 0 ∧ 15 % 10 ^ 1 ≠ 0 ∧
      HumanBalance 15 1 =
        ⟨natDecimal (15 / 10 ^ 1) ++ '.' ::
          trimTrailingZeros (padLeftZeros 1 (natDecimal (15 % 10 ^ 1)))⟩ :=
  ⟨by decide, by decide, ((humanBalance_spec 15 1).2.2.1 (by decide) (by decide)).1⟩

/-! ## Persistence: `BatchInsertBalances` (internal/storage/postgres.go)

An observation row (`TokenBalance` in internal/storage/models.go); times are
milliseconds, the raw balance is the non-negative big integer. -/

structure TokenBalance where
  queriedAt : Nat
  wallet : String
  tokenAddress : String
  symbol : String
  decimals : Nat
  rawBalance : Nat
  balance : String
deriving DecidableEq

/-- Argument tuple of one queued
`INSERT INTO token_balances (queried_at, wallet, token_address, symbol, decimals, raw_balance, balance)`. -/
structure InsertRow where
  queriedAt : Nat
  wallet : String
  tokenAddress : String
  symbol : String
  decimals : Nat
  rawBalance : String
  balance : String
deriving DecidableEq

/-- The row queued for one observation: `bal.RawBalance.String()` renders the
raw balance in decimal. -/
def rowOf (b : TokenBalance) : InsertRow :=
  ⟨b.queriedAt, b.wallet, b.tokenAddress, b.symbol, b.decimals, ⟨natDecimal b.rawBalance⟩, b.balance⟩

/-- The result-collection loop (`for range balances { br.Exec() }`): stops at
the first row whose execution reports an error and wraps it. `rowExec i` is
the database's outcome for the `i`-th queued statement. -/
def execBatch (rowExec : Nat → Option String) : Nat → Nat → Except String Unit
  | _, 0 => .ok ()
  | i, rem + 1 =>
    match rowExec i with
    | some e => .error ("batch insert failed: " ++ e)
    | none => execBatch rowExec (i + 1) rem

/-- Embeds `BatchInsertBalances`: empty input returns `nil` immediately;
otherwise one INSERT per observation is queued into a single `pgx.Batch`,
the batch is transmitted (`SendBatch`, second component `true`), and the
per-row results are collected.  Returns (error outcome, whether the database
was contacted, the queued rows). -/
def BatchInsertBalances (rowExec : Nat → Option String) (balances : List TokenBalance) :
    Except String Unit × Bool × List InsertRow :=
  if balances.isEmpty then (.ok (), false, [])
  else (execBatch rowExec 0 balances.length, true, balances.map rowOf)

theorem execBatch_ok_iff (rowExec : Nat → Option String) :
    ∀ rem i, execBatch rowExec i rem = .ok () ↔ ∀ j < rem, rowExec (i + j) = none := by
  intro rem
  induction rem with
  | zero => intro i; simp [execBatch]
  | succ rem ih =>
    intro i
    unfold execBatch
    rcases h0 : rowExec i with _ | e
    · rw [ih (i + 1)]
      constructor
      · intro h j hj
        cases j with
        | zero => simpa using h0
        | succ j =>
          have := h j (by omega)
          simpa [Nat.add_assoc, Nat.add_comm 1 j] using this
      · intro h j hj
        have := h (j + 1) (by omega)
        simpa [Nat.add_assoc, Nat.add_comm 1 j] using this
    · simp only [reduceCtorEq, false_iff, not_forall]
      exact ⟨0, by omega, by simp [h0]⟩

theorem execBatch_error (rowExec : Nat → Option String) :
    ∀ rem i e, execBatch rowExec i rem = .error e →
      ∃ j < rem, ∃ e0, rowExec (i + j) = some e0 ∧ e = "batch insert failed: " ++ e0 := by
  intro rem
  induction rem with
  | zero => intro i e h; simp [execBatch] at h
  | succ rem ih =>
    intro i e h
    unfold execBatch at h
    rcases h0 : rowExec i with _ | e0
    · rw [h0] at h
      obtain ⟨j, hj, e1, he1, he⟩ := ih (i + 1) e h
      exact ⟨j + 1, by omega, e1, by rwa [Nat.add_assoc, Nat.add_comm 1 j] at he1, he⟩
    · rw [h0] at h
      injection h with h
      exact ⟨0, by omega, e0, by simpa using h0, h.symm⟩

/-- C2.  `BatchInsertBalances` returns success immediately without touching
the database for an empty list; otherwise it queues exactly one INSERT per
observation into a single wire-level batch, succeeds exactly when every row
succeeds, and any single row failure fails the whole batch with a wrapped
error — the caller is never shown a partial success. -/
theorem batchInsertBalances_spec (rowExec : Nat → Option String) (balances : List TokenBalance) :
    (balances = [] → BatchInsertBalances rowExec balances = (.ok (), false, []))
    ∧ (balances ≠ [] →
        (BatchInsertBalances rowExec balances).2.1 = true
        ∧ (BatchInsertBalances rowExec balances).2.2 = balances.map rowOf
        ∧ (BatchInsertBalances rowExec balances).2.2.length = balances.length)
    ∧ ((BatchInsertBalances rowExec balances).1 = .ok ()
        ↔ ∀ j < balances.length, rowExec j = none)
    ∧ (∀ e, (BatchInsertBalances rowExec balances).1 = .error e →
        ∃ j < balances.length, ∃ e0, rowExec j = some e0
          ∧ e = "batch insert failed: " ++ e0) := by
  by_cases hemp : balances = []
  · subst hemp
    refine ⟨fun _ => rfl, fun h => absurd rfl h, ?_, ?_⟩
    · simp [BatchInsertBalances]
    · intro e h
      simp [BatchInsertBalances] at h
  · have hne : balances.isEmpty = false := by
      simpa [List.isEmpty_iff] using hemp
    refine ⟨fun h => absurd h hemp, fun _ => ?_, ?_, ?_⟩
    · simp [BatchInsertBalances, hne]
    · simp only [BatchInsertBalances, hne, Bool.false_eq_true, if_false]
      have := execBatch_ok_iff rowExec balances.length 0
      simpa using this
    · intro e h
      simp only [BatchInsertBalances, hne, Bool.false_eq_true, if_false] at h
      have := execBatch_error rowExec balances.length 0 e h
      simpa using this

/-- A sample observation used by witnesses. -/
def obsW : TokenBalance := ⟨0, "w", "t", "S", 1, 15, "1.5"⟩

/-- Witness for `batchInsertBalances_spec` at a singleton batch whose row
succeeds. -/
theorem batchInsertBalances_spec_witness :
    ([obsW] ≠ [])
    ∧ (BatchInsertBalances (fun _ => none) [obsW]).2.1 = true
    ∧ (BatchInsertBalances (fun _ => none) [obsW]).2.2 = [obsW].map rowOf
    ∧ (BatchInsertBalances (fun _ => none) [obsW]).2.2.length = [obsW].length :=
  ⟨by decide, (batchInsertBalances_spec (fun _ => none) [obsW]).2.1 (by decide)⟩

/-! ## Configuration validation (internal/config/config.go)

`TokenConfig` carries the struct tags
`label: required,min=1,max=100`, `address: required,eth_addr`,
`fallback_decimals (uint8): required,min=0,max=255`.
go-playground/validator semantics: on a string, `required` means non-empty
and `min`/`max` bound the length; on an unsigned integer, `required` means
the value differs from the zero value `0`, and `min`/`max` bound the value.
`eth_addr` runs `common.IsHexAddress`. -/

def isHexDigitChar (c : Char) : Bool :=
  c.isDigit || ('a' ≤ c && c ≤ 'f') || ('A' ≤ c && c ≤ 'F')

/-- Embeds go-ethereum `common.IsHexAddress`: an optional `0x`/`0X` prefix
is stripped, then the rest must be exactly 40 hex digits. -/
def IsHexAddress (s : String) : Bool :=
  match s.data with
  | '0' :: 'x' :: rest => rest.length == 40 && rest.all isHexDigitChar
  | '0' :: 'X' :: rest => rest.length == 40 && rest.all isHexDigitChar
  | l => l.length == 40 && l.all isHexDigitChar

structure TokenConfig where
  label : String
  address : String
  fallbackDecimals : Nat
deriving DecidableEq

/-- Embeds the validator rules registered by `NewValidator` for one
`TokenConfig`, tag by tag (see the section comment; in particular `required`
on the `uint8` field `fallback_decimals` fails on the value `0`). -/
def validateTokenConfig (t : TokenConfig) : Bool :=
  (t.label != "" && decide (1 ≤ t.label.length) && decide (t.label.length ≤ 100))
  && (t.address != "" && IsHexAddress t.address)
  && (t.fallbackDecimals != 0 && decide (t.fallbackDecimals ≤ 255))

/-- C9.  Contrary to the claim, configuration validation does not accept
every `fallback_decimals` in [0,255]: the `required` tag on the `uint8`
field rejects the zero value, so a token with `fallback_decimals = 0` fails
validation even with a non-empty label and a well-formed hex address, while
the same token with `fallback_decimals = 6` passes. -/
theorem validateTokenConfig_rejects_zero_decimals :
    validateTokenConfig ⟨"USDC", "0x52908400098527886E0F7030069857D2E4169EE7", 0⟩ = false
    ∧ ("USDC" : String) ≠ ""
    ∧ IsHexAddress "0x52908400098527886E0F7030069857D2E4169EE7" = true
    ∧ (0 : Nat) ≤ 255
    ∧ validateTokenConfig ⟨"USDC", "0x52908400098527886E0F7030069857D2E4169EE7", 6⟩ = true := by
  decide

/-! ## Tick executor `processAllWallets` (cmd/run.go)

The loop iterates the configured wallets in order.  At the start of each
wallet it checks the context (`select … ctx.Done()`): on cancellation it
returns `ctx.Err()` immediately.  Otherwise it fans out one unit of work per
token with a non-empty address; failed queries are logged and dropped; the
successes are collected and, when the buffer is non-empty, submitted to
`BatchInsertBalances`, whose error is logged and then ignored (`continue`).

The environment supplies the outcome of each cancellation check
(`cancelled i` for the `i`-th wallet), the outcome of each token query
(`query i j` for wallet `i`, token `j`; `none` means the query failed) and
the outcome of each attempted batch insert (`insertOk i`). -/

structure TickEnv where
  cancelled : Nat → Bool
  query : Nat → Nat → Option TokenBalance
  insertOk : Nat → Bool

/-- The collected per-wallet buffer: the successful results for the tokens
with a non-empty address (collection order of the parallel fan-out is
modelled as configuration order; the claims do not depend on the order). -/
def walletBatch (tokens : List TokenConfig) (q : Nat → Option TokenBalance) : List TokenBalance :=
  (List.range tokens.length).filterMap fun j =>
    match tokens.get? j with
    | some tok => if tok.address = "" then none else q j
    | none => none

/-- One attempted batch insert: wallet index, submitted buffer, outcome. -/
structure WalletInsert where
  wallet : Nat
  batch : List TokenBalance
  ok : Bool
deriving DecidableEq

def processWalletsFrom (env : TickEnv) (tokens : List TokenConfig) :
    Nat → Nat → Except String Unit × List WalletInsert
  | _, 0 => (.ok (), [])
  | i, rem + 1 =>
    if env.cancelled i then (.error "context canceled", [])
    else
      ((processWalletsFrom env tokens (i + 1) rem).1,
        (if (walletBatch tokens (env.query i)).isEmpty then []
         else [⟨i, walletBatch tokens (env.query i), env.insertOk i⟩])
          ++ (processWalletsFrom env tokens (i + 1) rem).2)

/-- Embeds `processAllWallets`: returns the run outcome together with the
trace of attempted batch inserts. -/
def processAllWallets (env : TickEnv) (wallets : List String) (tokens : List TokenConfig) :
    Except String Unit × List WalletInsert :=
  processWalletsFrom env tokens 0 wallets.length

theorem processWalletsFrom_ok_iff (env : TickEnv) (tokens : List TokenConfig) :
    ∀ rem i, (processWalletsFrom env tokens i rem).1 = .ok ()
      ↔ ∀ j < rem, env.cancelled (i + j) = false := by
  intro rem
  induction rem with
  | zero => intro i; simp [processWalletsFrom]
  | succ rem ih =>
    intro i
    unfold processWalletsFrom
    rcases hc : env.cancelled i with _ | _
    · simp only [Bool.false_eq_true, if_false]
      rw [show ∀ (a : Except String Unit) (b : List WalletInsert), (a, b).1 = a from fun _ _ => rfl]
      rw [ih (i + 1)]
      constructor
      · intro h j hj
        cases j with
        | zero => simpa using hc
        | succ j =>
          have := h j (by omega)
          simpa [Nat.add_assoc, Nat.add_comm 1 j] using this
      · intro h j hj
        have := h (j + 1) (by omega)
        simpa [Nat.add_assoc, Nat.add_comm 1 j] using this
    · simp only [if_true]
      constructor
      · intro h; exact absurd h (by simp)
      · intro h
        have := h 0 (by omega)
        simp [hc] at this

theorem processWalletsFrom_result_cases (env : TickEnv) (tokens : List TokenConfig) :
    ∀ rem i, (processWalletsFrom env tokens i rem).1 = .ok ()
      ∨ (processWalletsFrom env tokens i rem).1 = .error "context canceled" := by
  intro rem
  induction rem with
  | zero => intro i; left; rfl
  | succ rem ih =>
    intro i
    unfold processWalletsFrom
    rcases hc : env.cancelled i with _ | _
    · simpa using ih (i + 1)
    · right; rfl

theorem processWalletsFrom_trace (env : TickEnv) (tokens : List TokenConfig) :
    ∀ rem i, (∀ j < rem, env.cancelled (i + j) = false) →
      (processWalletsFrom env tokens i rem).2
        = (List.range' i rem).filterMap (fun w =>
            let b := walletBatch tokens (env.query w)
            if b.isEmpty then none else some ⟨w, b, env.insertOk w⟩) := by
  intro rem
  induction rem with
  | zero => intro i _; simp [processWalletsFrom]
  | succ rem ih =>
    intro i h
    have hc : env.cancelled i = false := by simpa using h 0 (by omega)
    unfold processWalletsFrom
    simp only [hc, Bool.false_eq_true, if_false]
    have hrest : ∀ j < rem, env.cancelled (i + 1 + j) = false := by
      intro j hj
      have := h (j + 1) (by omega)
      simpa [Nat.add_assoc, Nat.add_comm 1 j] using this
    rw [show ∀ (a : Except String Unit) (b : List WalletInsert), (a, b).2 = b from fun _ _ => rfl]
    rw [ih (i + 1) hrest, List.range'_succ]
    simp only [List.filterMap_cons]
    rcases hb : (walletBatch tokens (env.query i)).isEmpty with _ | _
    · simp [hb]
    · simp [hb]

/-- C6.  `processAllWallets` returns a non-nil error exactly when some
cancellation check at a wallet start fires; the outcome is independent of
the per-token query results and of the batch-insert outcomes (those
failures are logged and dropped); and a run with no cancellation attempts
an insert for every wallet with a non-empty buffer, regardless of earlier
insert failures. -/
theorem processAllWallets_spec (env : TickEnv) (wallets : List String) (tokens : List TokenConfig) :
    ((processAllWallets env wallets tokens).1 = .ok ()
      ↔ ∀ i < wallets.length, env.cancelled i = false)
    ∧ ((processAllWallets env wallets tokens).1 = .ok ()
        ∨ (processAllWallets env wallets tokens).1 = .error "context canceled")
    ∧ (∀ q2 ins2, (processAllWallets ⟨env.cancelled, q2, ins2⟩ wallets tokens).1
        = (processAllWallets env wallets tokens).1)
    ∧ ((∀ i < wallets.length, env.cancelled i = false) →
        (processAllWallets env wallets tokens).2
          = (List.range' 0 wallets.length).filterMap (fun w =>
              let b := walletBatch tokens (env.query w)
              if b.isEmpty then none else some ⟨w, b, env.insertOk w⟩)) := by
  refine ⟨?_, processWalletsFrom_result_cases env tokens wallets.length 0, ?_, ?_⟩
  · have := processWalletsFrom_ok_iff env tokens wallets.length 0
    simpa using this
  · intro q2 ins2
    have h1 := processWalletsFrom_ok_iff env tokens wallets.length 0
    have h2 := processWalletsFrom_ok_iff ⟨env.cancelled, q2, ins2⟩ tokens wallets.length 0
    have hc1 := processWalletsFrom_result_cases env tokens wallets.length 0
    have hc2 := processWalletsFrom_result_cases ⟨env.cancelled, q2, ins2⟩ tokens wallets.length 0
    rcases hc1 with hok | herr
    · rw [show processAllWallets env wallets tokens
          = processWalletsFrom env tokens 0 wallets.length from rfl, hok]
      exact h2.mpr (h1.mp hok)
    · rcases hc2 with hok2 | herr2
      · exfalso
        have := h1.mpr (h2.mp hok2)
        rw [this] at herr
        exact absurd herr (by simp)
      · rw [show processAllWallets env wallets tokens
            = processWalletsFrom env tokens 0 wallets.length from rfl, herr]
        exact herr2
  · intro h
    exact processWalletsFrom_trace env tokens wallets.length 0 (by simpa using h)

/-- A tick environment for the witness: never cancelled, every query
succeeds, every insert fails. -/
def tickEnvW : TickEnv := ⟨fun _ => false, fun _ _ => some obsW, fun _ => false⟩

/-- Witness for `processAllWallets_spec`: two wallets, one token, inserts
always failing — the run still succeeds and both inserts were attempted. -/
theorem processAllWallets_spec_witness :
    (∀ i < (["w1", "w2"] : List String).length, tickEnvW.cancelled i = false)
    ∧ (processAllWallets tickEnvW ["w1", "w2"] [⟨"T", "0xa", 6⟩]).2
        = (List.range' 0 (["w1", "w2"] : List String).length).filterMap (fun w =>
            let b := walletBatch [⟨"T", "0xa", 6⟩] (tickEnvW.query w)
            if b.isEmpty then none else some ⟨w, b, tickEnvW.insertOk w⟩) :=
  ⟨by decide,
   (processAllWallets_spec tickEnvW ["w1", "w2"] [⟨"T", "0xa", 6⟩]).2.2.2 (by decide)⟩

/-! ## RPC failover pool (internal/blockchain/failover.go)

An endpoint descriptor: URL, optional live connection handle (handles are
opaque identifiers), health flag, last error and its time (milliseconds).
The pool is the ordered endpoint list plus `currentIndex`.  Times are
milliseconds; the cooldown `unhealthyDuration` is 5 minutes. -/

def unhealthyDurationMs : Nat := 300000

structure Endpoint where
  url : String
  client : Option Nat
  healthy : Bool
  lastError : Option String
  lastErrorTime : Nat
deriving DecidableEq

structure Pool where
  endpoints : List Endpoint
  currentIndex : Nat
deriving DecidableEq

/-- The position visited at sweep offset `j` from `start`:
`idx := (startIndex + i) % len(fc.endpoints)`. -/
def sweepIdx (p : Pool) (start j : Nat) : Nat :=
  (start + j) % p.endpoints.length

/-- Embeds the body of `GetClient`'s `for i := 0; i < len(endpoints); i++`
sweep.  `rem` counts the remaining iterations, `i` the current offset;
`redial idx` is the combined outcome of `ethclient.Dial` plus the 5-second
chain-id probe for the endpoint at position `idx` (`some h` is a fresh live
handle); a failed redial closes the new dial and leaves the pool unchanged.
The two guards mirror `if healthy && client != nil` and
`if !healthy && canRetry` of the source. -/
def GetClientLoop (now : Nat) (redial : Nat → Option Nat) (p : Pool) (start : Nat) :
    Nat → Nat → Option (Nat × String) × Pool
  | _, 0 => (none, p)
  | i, rem + 1 =>
    match p.endpoints[sweepIdx p start i]? with
    | none => (none, p)
    | some ep =>
      if ep.healthy && ep.client.isSome then
        (ep.client.map (fun h => (h, ep.url)), { p with currentIndex := sweepIdx p start i })
      else if !ep.healthy && decide (now - ep.lastErrorTime > unhealthyDurationMs) then
        match redial (sweepIdx p start i) with
        | some h =>
          (some (h, ep.url),
            { p with
                endpoints := p.endpoints.set (sweepIdx p start i)
                  { ep with client := some h, healthy := true, lastError := none },
                currentIndex := sweepIdx p start i })
        | none => GetClientLoop now redial p start (i + 1) rem
      else GetClientLoop now redial p start (i + 1) rem

/-- Embeds `GetClient`: one sweep over the pool starting at `currentIndex`;
returns `none` (the "no healthy RPC endpoints available" error) if the
sweep ends without success. -/
def GetClient (now : Nat) (redial : Nat → Option Nat) (p : Pool) :
    Option (Nat × String) × Pool :=
  GetClientLoop now redial p p.currentIndex 0 p.endpoints.length

/-- Embeds `MarkUnhealthy`: locate the first descriptor with the given URL,
set `healthy = false`, record the error and its time, close and null the
handle; no matching descriptor means no change. -/
def MarkUnhealthyList (now : Nat) (url err : String) : List Endpoint → List Endpoint
  | [] => []
  | ep :: rest =>
    if ep.url = url then
      { ep with healthy := false, lastError := some err, lastErrorTime := now, client := none }
        :: rest
    else ep :: MarkUnhealthyList now url err rest

def MarkUnhealthy (now : Nat) (url err : String) (p : Pool) : Pool :=
  { p with endpoints := MarkUnhealthyList now url err p.endpoints }

/-- A descriptor that `GetClient` returns directly: healthy with a live
handle. -/
def liveAt (p : Pool) (idx : Nat) : Bool :=
  match p.endpoints[idx]? with
  | some ep => ep.healthy && ep.client.isSome
  | none => false

/-- A descriptor that `GetClient` can reopen: unhealthy, past the cooldown,
and the redial (dial + chain-id probe) succeeds. -/
def redialableAt (now : Nat) (redial : Nat → Option Nat) (p : Pool) (idx : Nat) : Bool :=
  match p.endpoints[idx]? with
  | some ep =>
    !ep.healthy && decide (now - ep.lastErrorTime > unhealthyDurationMs) && (redial idx).isSome
  | none => false

def eligibleAt (now : Nat) (redial : Nat → Option Nat) (p : Pool) (idx : Nat) : Bool :=
  liveAt p idx || redialableAt now redial p idx

theorem GetClientLoop_none (now : Nat) (redial : Nat → Option Nat) (p : Pool) (start : Nat) :
    ∀ rem i, (GetClientLoop now redial p start i rem).1 = none →
      (GetClientLoop now redial p start i rem).2 = p
      ∧ ∀ j, i ≤ j → j < i + rem → eligibleAt now redial p (sweepIdx p start j) = false := by
  intro rem
  induction rem with
  | zero => intro i _; exact ⟨rfl, fun j h1 h2 => by omega⟩
  | succ rem ih =>
    intro i hres
    unfold GetClientLoop at hres ⊢
    rcases hget : p.endpoints[sweepIdx p start i]? with _ | ep
    · simp only [hget] at hres ⊢
      refine ⟨by trivial, fun j h1 h2 => ?_⟩
      have hnone : p.endpoints[sweepIdx p start j]? = none := by
        rcases hlen : p.endpoints.length with _ | n
        · exact List.getElem?_eq_none (by simp [hlen])
        · exfalso
          have hlt : sweepIdx p start i < p.endpoints.length := by
            unfold sweepIdx; rw [hlen]; exact Nat.mod_lt _ (by omega)
          rw [List.getElem?_eq_none_iff] at hget
          omega
      simp [eligibleAt, liveAt, redialableAt, hnone]
    · simp only [hget] at hres ⊢
      rcases hc1 : ep.healthy && ep.client.isSome with _ | _
      · rcases hc2 : !ep.healthy && decide (now - ep.lastErrorTime > unhealthyDurationMs)
          with _ | _
        · simp only [hc1, hc2, Bool.false_eq_true, if_false] at hres ⊢
          obtain ⟨hst, hall⟩ := ih (i + 1) hres
          refine ⟨hst, fun j h1 h2 => ?_⟩
          rcases Nat.eq_or_lt_of_le h1 with he | hlt
          · subst he
            simp only [eligibleAt, liveAt, redialableAt, hget, Bool.or_eq_false_iff]
            refine ⟨hc1, ?_⟩
            rw [hc2]
            simp
          · exact hall j hlt (by omega)
        · rcases hred : redial (sweepIdx p start i) with _ | h0
          · simp only [hc1, hc2, Bool.false_eq_true, if_false, if_true, hred] at hres ⊢
            obtain ⟨hst, hall⟩ := ih (i + 1) hres
            refine ⟨hst, fun j h1 h2 => ?_⟩
            rcases Nat.eq_or_lt_of_le h1 with he | hlt
            · subst he
              simp only [eligibleAt, liveAt, redialableAt, hget, Bool.or_eq_false_iff]
              refine ⟨hc1, ?_⟩
              rw [hred]
              simp
            · exact hall j hlt (by omega)
          · simp only [hc1, hc2, Bool.false_eq_true, if_false, if_true, hred] at hres
            exact absurd hres (by simp)
      · simp only [hc1, if_true] at hres
        have hsome : ep.client.isSome = true := by
          have := hc1
          simp only [Bool.and_eq_true] at this
          exact this.2
        rcases Option.isSome_iff_exists.mp hsome with ⟨h0, hcl⟩
        rw [hcl] at hres
        exact absurd hres (by simp)

theorem GetClientLoop_some (now : Nat) (redial : Nat → Option Nat) (p : Pool) (start : Nat) :
    ∀ rem i h url, (GetClientLoop now redial p start i rem).1 = some (h, url) →
      ∃ j, i ≤ j ∧ j < i + rem
        ∧ (∀ j', i ≤ j' → j' < j → eligibleAt now redial p (sweepIdx p start j') = false)
        ∧ ∃ ep, p.endpoints[sweepIdx p start j]? = some ep ∧ ep.url = url
          ∧ ((ep.healthy = true ∧ ep.client = some h
                ∧ (GetClientLoop now redial p start i rem).2
                    = { p with currentIndex := sweepIdx p start j })
             ∨ (ep.healthy = false ∧ now - ep.lastErrorTime > unhealthyDurationMs
                ∧ redial (sweepIdx p start j) = some h
                ∧ (GetClientLoop now redial p start i rem).2
                    = { p with
                          endpoints := p.endpoints.set (sweepIdx p start j)
                            { ep with client := some h, healthy := true, lastError := none },
                          currentIndex := sweepIdx p start j })) := by
  intro rem
  induction rem with
  | zero => intro i h url hres; exact absurd hres (by simp [GetClientLoop])
  | succ rem ih =>
    intro i h url hres
    unfold GetClientLoop at hres ⊢
    rcases hget : p.endpoints[sweepIdx p start i]? with _ | ep
    · rw [hget] at hres; exact absurd hres (by simp)
    · simp only [hget] at hres ⊢
      rcases hc1 : ep.healthy && ep.client.isSome with _ | _
      · rcases hc2 : !ep.healthy && decide (now - ep.lastErrorTime > unhealthyDurationMs)
          with _ | _
        · simp only [hc1, hc2, Bool.false_eq_true, if_false] at hres ⊢
          obtain ⟨j, hj1, hj2, hprev, hrest⟩ := ih (i + 1) h url hres
          refine ⟨j, by omega, by omega, fun j' hx1 hx2 => ?_, hrest⟩
          rcases Nat.eq_or_lt_of_le hx1 with he | hlt
          · subst he
            simp only [eligibleAt, liveAt, redialableAt, hget, Bool.or_eq_false_iff]
            refine ⟨hc1, ?_⟩
            rw [hc2]
            simp
          · exact hprev j' hlt hx2
        · rcases hred : redial (sweepIdx p start i) with _ | h0
          · simp only [hc1, hc2, Bool.false_eq_true, if_false, if_true, hred] at hres ⊢
            obtain ⟨j, hj1, hj2, hprev, hrest⟩ := ih (i + 1) h url hres
            refine ⟨j, by omega, by omega, fun j' hx1 hx2 => ?_, hrest⟩
            rcases Nat.eq_or_lt_of_le hx1 with he | hlt
            · subst he
              simp only [eligibleAt, liveAt, redialableAt, hget, Bool.or_eq_false_iff]
              refine ⟨hc1, ?_⟩
              rw [hred]
              simp
            · exact hprev j' hlt hx2
          · simp only [hc1, hc2, Bool.false_eq_true, if_false, if_true, hred] at hres ⊢
            injection hres with hres
            injection hres with hres1 hres2
            subst hres1
            have hc2p : ep.healthy = false ∧ now - ep.lastErrorTime > unhealthyDurationMs := by
              have := hc2
              simp only [Bool.and_eq_true, Bool.not_eq_true', decide_eq_true_eq] at this
              exact this
            exact ⟨i, le_refl i, by omega, fun j' hx1 hx2 => by omega,
              ep, hget, hres2, Or.inr ⟨hc2p.1, hc2p.2, hred, rfl⟩⟩
      · simp only [hc1, if_true] at hres ⊢
        have hc1p : ep.healthy = true ∧ ep.client.isSome = true := by
          have := hc1
          simp only [Bool.and_eq_true] at this
          exact this
        rcases Option.isSome_iff_exists.mp hc1p.2 with ⟨h0, hcl⟩
        rw [hcl] at hres
        simp only [Option.map_some'] at hres
        injection hres with hres
        injection hres with hres1 hres2
        subst hres1
        exact ⟨i, le_refl i, by omega, fun j' hx1 hx2 => by omega,
          ep, hget, hres2, Or.inl ⟨hc1p.1, hcl, rfl⟩⟩

/-- C5.  `GetClient` sweeps the pool exactly once from `currentIndex`: it
returns the first descriptor that is healthy with a live handle (or, for an
unhealthy descriptor past the 5-minute cooldown, one successfully redialed
under the probe, replacing the handle, setting `healthy = true` and clearing
the error), sets `currentIndex` to that position, returns the
no-healthy-endpoints error if the single sweep finds nothing, and never
returns an endpoint whose handle is null. -/
theorem getClient_spec (now : Nat) (redial : Nat → Option Nat) (p : Pool) :
    ((GetClient now redial p).1 = none →
      (GetClient now redial p).2 = p
      ∧ ∀ j < p.endpoints.length,
          eligibleAt now redial p (sweepIdx p p.currentIndex j) = false)
    ∧ (∀ h url, (GetClient now redial p).1 = some (h, url) →
        ∃ j < p.endpoints.length,
          (∀ j' < j, eligibleAt now redial p (sweepIdx p p.currentIndex j') = false)
          ∧ (GetClient now redial p).2.currentIndex = sweepIdx p p.currentIndex j
          ∧ (∃ ep, p.endpoints[sweepIdx p p.currentIndex j]? = some ep ∧ ep.url = url
              ∧ ((ep.healthy = true ∧ ep.client = some h
                    ∧ (GetClient now redial p).2
                        = { p with currentIndex := sweepIdx p p.currentIndex j })
                 ∨ (ep.healthy = false ∧ now - ep.lastErrorTime > unhealthyDurationMs
                    ∧ redial (sweepIdx p p.currentIndex j) = some h
                    ∧ (GetClient now redial p).2
                        = { p with
                              endpoints := p.endpoints.set (sweepIdx p p.currentIndex j)
                                { ep with client := some h, healthy := true, lastError := none },
                              currentIndex := sweepIdx p p.currentIndex j })))
          ∧ ∃ ep2,
              (GetClient now redial p).2.endpoints[(GetClient now redial p).2.currentIndex]?
                = some ep2
              ∧ ep2.client = some h ∧ ep2.healthy = true) := by
  constructor
  · intro hres
    unfold GetClient at hres ⊢
    obtain ⟨hst, hall⟩ := GetClientLoop_none now redial p p.currentIndex p.endpoints.length 0 hres
    exact ⟨hst, fun j hj => hall j (by omega) (by omega)⟩
  · intro h url hres
    unfold GetClient at hres ⊢
    obtain ⟨j, hj0, hjlt, hprev, ep, hget, hurl, hcase⟩ :=
      GetClientLoop_some now redial p p.currentIndex p.endpoints.length 0 h url hres
    have hidx : sweepIdx p p.currentIndex j < p.endpoints.length := by
      have := List.getElem?_eq_some_iff.mp hget
      exact this.1
    refine ⟨j, by omega, fun j' hj' => hprev j' (by omega) hj', ?_, ⟨ep, hget, hurl, hcase⟩, ?_⟩
    · rcases hcase with ⟨_, _, hst⟩ | ⟨_, _, _, hst⟩ <;> rw [hst]
    · rcases hcase with ⟨hh, hcl, hst⟩ | ⟨hh, hcool, hred, hst⟩
      · refine ⟨ep, ?_, hcl, hh⟩
        rw [hst]
        exact hget
      · refine ⟨{ ep with client := some h, healthy := true, lastError := none }, ?_, rfl, rfl⟩
        rw [hst]
        exact List.getElem?_set_self hidx

/-- A one-endpoint pool used by the `getClient_spec` witness. -/
def poolW : Pool := ⟨[⟨"https://a", some 7, true, none, 0⟩], 0⟩

/-- Witness for `getClient_spec`: on a healthy one-endpoint pool the sweep
returns that endpoint's live handle. -/
theorem getClient_spec_witness :
    (GetClient 0 (fun _ => none) poolW).1 = some (7, "https://a")
    ∧ ∃ j < poolW.endpoints.length,
        (∀ j' < j, eligibleAt 0 (fun _ => none) poolW (sweepIdx poolW poolW.currentIndex j') = false)
        ∧ (GetClient 0 (fun _ => none) poolW).2.currentIndex
            = sweepIdx poolW poolW.currentIndex j
        ∧ (∃ ep, poolW.endpoints[sweepIdx poolW poolW.currentIndex j]? = some ep
            ∧ ep.url = "https://a"
            ∧ ((ep.healthy = true ∧ ep.client = some 7
                  ∧ (GetClient 0 (fun _ => none) poolW).2
                      = { poolW with currentIndex := sweepIdx poolW poolW.currentIndex j })
               ∨ (ep.healthy = false ∧ 0 - ep.lastErrorTime > unhealthyDurationMs
                  ∧ (fun _ => none : Nat → Option Nat) (sweepIdx poolW poolW.currentIndex j) = some 7
                  ∧ (GetClient 0 (fun _ => none) poolW).2
                      = { poolW with
                            endpoints := poolW.endpoints.set (sweepIdx poolW poolW.currentIndex j)
                              { ep with client := some 7, healthy := true, lastError := none },
                            currentIndex := sweepIdx poolW poolW.currentIndex j })))
        ∧ ∃ ep2,
            (GetClient 0 (fun _ => none) poolW).2.endpoints[(GetClient 0 (fun _ => none) poolW).2.currentIndex]?
              = some ep2
            ∧ ep2.client = some 7 ∧ ep2.healthy = true :=
  ⟨by decide, (getClient_spec 0 (fun _ => none) poolW).2 7 "https://a" (by decide)⟩

/-! ## Retry engine `retryWithBackoff` (internal/blockchain/client.go)

`maxRetries = 3`, `retryInterval = 500 ms`.  Per attempt `attempt = 0,1,2`
the loop:

* for `attempt > 0`, sleeps `500ms * 2^(attempt-1)` in a `select` against
  `ctx.Done()`; if the context fires first the engine returns `ctx.Err()`;
* calls `GetClient`, keeping only the URL — the client and the error are
  discarded (`_, currentURL, _ = c.failoverClient.GetClient()`; on error
  the URL is Go's zero value, the empty string);
* invokes the closure `fn()`; on success returns nil; on failure records
  the error as `lastErr`, calls `MarkUnhealthy(currentURL, err)` and
  re-selects — the re-selection result only matters through its side
  effect on the pool, since both branches `continue`;
* after `maxRetries` failed attempts returns the wrapped
  "failed after 3 retries" error carrying `lastErr`.

`cancelAt` is the instant (ms) at which `ctx.Done()` fires (`none`: never).
The abstract system supplies the pool operations and the closure: `runOp t s`
is the outcome of `fn()` started at time `t` in world `s`, with the new time
and world.  The trace records completed sleeps, the URL selected before each
attempt, the outcome of each `fn()` invocation, each `MarkUnhealthy` call,
and each re-selection after a failure. -/

def maxRetries : Nat := 3
def retryIntervalMs : Nat := 500

/-- `retryInterval * time.Duration(1 << uint(attempt-1))` in milliseconds. -/
def backoffOf (attempt : Nat) : Nat := retryIntervalMs * 2 ^ (attempt - 1)

structure RetrySys (σ : Type) where
  getClient : σ → Option String × σ
  markUnhealthy : String → String → σ → σ
  runOp : Nat → σ → Option String × Nat × σ

inductive RetryResult where
  | ok : RetryResult
  | cancelled : RetryResult
  | exhausted : String → RetryResult
deriving DecidableEq

structure RetryTrace where
  sleeps : List Nat
  sels : List (Option String)
  ops : List (Option String)
  marks : List (String × String)
  resels : List (Option String)
deriving DecidableEq

/-- Does `ctx.Done()` fire strictly before a sleep of `backoff` started at
`t` completes? -/
def cancelledDuring (cancelAt : Option Nat) (t backoff : Nat) : Bool :=
  match cancelAt with
  | some c => c < t + backoff
  | none => false

def retryStep {σ : Type} (sys : RetrySys σ) (cancelAt : Option Nat) :
    Nat → Nat → Nat → Option String → σ → RetryResult × Nat × σ × RetryTrace
  | 0, _, t, lastErr, s => (.exhausted (lastErr.getD ""), t, s, ⟨[], [], [], [], []⟩)
  | rem + 1, attempt, t, _lastErr, s =>
    if 0 < attempt && cancelledDuring cancelAt t (backoffOf attempt) then
      (.cancelled, max t (cancelAt.getD 0), s, ⟨[], [], [], [], []⟩)
    else
      match sys.getClient s with
      | (sel, s1) =>
        match sys.runOp (if attempt == 0 then t else t + backoffOf attempt) s1 with
        | (none, t2, s2) =>
          (.ok, t2, s2,
            ⟨if attempt == 0 then [] else [backoffOf attempt], [sel], [none], [], []⟩)
        | (some e, t2, s2) =>
          match sys.getClient (sys.markUnhealthy (sel.getD "") e s2) with
          | (resel, s4) =>
            match retryStep sys cancelAt rem (attempt + 1) t2 (some e) s4 with
            | (res, tf, sf, tr) =>
              (res, tf, sf,
                ⟨(if attempt == 0 then [] else [backoffOf attempt]) ++ tr.sleeps,
                 sel :: tr.sels, some e :: tr.ops,
                 (sel.getD "", e) :: tr.marks, resel :: tr.resels⟩)

/-- Embeds `retryWithBackoff`: up to `maxRetries = 3` attempts starting at
time `t0` with no sleep before the first. -/
def retryWithBackoff {σ : Type} (sys : RetrySys σ) (cancelAt : Option Nat) (t0 : Nat) (s : σ) :
    RetryResult × Nat × σ × RetryTrace :=
  retryStep sys cancelAt maxRetries 0 t0 none s

theorem retryStep_struct {σ : Type} (sys : RetrySys σ) (cancelAt : Option Nat) :
    ∀ rem attempt t lastErr s res tf sf tr,
      retryStep sys cancelAt rem attempt t lastErr s = (res, tf, sf, tr) →
        tr.ops.length ≤ rem
        ∧ tr.sels.length = tr.ops.length
        ∧ (attempt = 0 → rem ≠ 0 → 1 ≤ tr.ops.length)
        ∧ (res = .ok ↔ tr.ops.getLast? = some none)
        ∧ (∀ e, res = .exhausted e → tr.ops.length = rem ∧ (∀ o ∈ tr.ops, o ≠ none)
            ∧ ((tr.ops = [] ∧ e = lastErr.getD "") ∨ tr.ops.getLast? = some (some e)))
        ∧ (res = .cancelled → cancelAt ≠ none ∧ tr.ops.length < rem) := by
  intro rem
  induction rem with
  | zero =>
    intro attempt t lastErr s res tf sf tr h
    unfold retryStep at h
    simp only [Prod.mk.injEq] at h
    obtain ⟨h1, _, _, h4⟩ := h
    subst h1; subst h4
    refine ⟨by simp, by simp, fun _ h => absurd rfl h, by simp, ?_, by simp⟩
    intro e he
    injection he with he
    exact ⟨rfl, by simp, Or.inl ⟨rfl, he.symm⟩⟩
  | succ rem ih =>
    intro attempt t lastErr s res tf sf tr h
    unfold retryStep at h
    split at h
    · -- cancelled during the backoff sleep
      rename_i hcan
      simp only [Prod.mk.injEq] at h
      obtain ⟨h1, _, _, h4⟩ := h
      subst h1; subst h4
      refine ⟨by simp, by simp, ?_, by simp, fun e he => absurd he (by simp), ?_⟩
      · intro ha _
        subst ha
        simp at hcan
      · intro _
        refine ⟨?_, by simp⟩
        intro hnone
        subst hnone
        simp [cancelledDuring] at hcan
    · rename_i hcan
      split at h
      rename_i sel s1 hsel
      split at h
      · -- fn() succeeded
        rename_i t2 s2 hop
        simp only [Prod.mk.injEq] at h
        obtain ⟨h1, _, _, h4⟩ := h
        subst h1; subst h4
        refine ⟨by simp, by simp, fun _ _ => by simp, by simp, ?_, by simp⟩
        intro e he
        exact absurd he (by simp)
      · -- fn() failed: mark unhealthy, re-select, recurse
        rename_i e t2 s2 hop
        split at h
        rename_i resel s4 hres2
        split at h
        rename_i res0 tf0 sf0 tr0 hrec
        simp only [Prod.mk.injEq] at h
        obtain ⟨h1, _, _, h4⟩ := h
        subst h1; subst h4
        obtain ⟨ihl, ihsel, _, ihok, ihex, ihcan⟩ :=
          ih (attempt + 1) t2 (some e) s4 res0 tf0 sf0 tr0 hrec
        refine ⟨by simp; omega, by simp; omega, fun _ _ => by simp, ?_, ?_, ?_⟩
        · rw [ihok]
          rcases tr0.ops with _ | ⟨o2, rest⟩
          · simp
          · simp [List.getLast?_cons_cons]
        · intro e0 he0
          obtain ⟨hl, hmem, hdisj⟩ := ihex e0 he0
          refine ⟨by simp [hl], ?_, ?_⟩
          · intro o ho
            rcases List.mem_cons.mp ho with ho | ho
            · subst ho; simp
            · exact hmem o ho
          · rcases hdisj with ⟨hnil, he⟩ | hlast
            · rw [hnil]
              simp only [Option.getD_some] at he
              subst he
              simp
            · right
              rcases hops : tr0.ops with _ | ⟨o2, rest⟩
              · rw [hops] at hlast; simp at hlast
              · rw [hops] at hlast
                simpa [List.getLast?_cons_cons] using hlast
        · intro hc
          obtain ⟨hne, hlt⟩ := ihcan hc
          exact ⟨hne, by simp; omega⟩

theorem retryStep_sleeps {σ : Type} (sys : RetrySys σ) (cancelAt : Option Nat) :
    ∀ rem attempt t lastErr s res tf sf tr, 1 ≤ attempt →
      retryStep sys cancelAt rem attempt t lastErr s = (res, tf, sf, tr) →
        tr.sleeps = (List.range' attempt tr.ops.length).map backoffOf := by
  intro rem
  induction rem with
  | zero =>
    intro attempt t lastErr s res tf sf tr _ h
    unfold retryStep at h
    simp only [Prod.mk.injEq] at h
    obtain ⟨_, _, _, h4⟩ := h
    subst h4
    simp
  | succ rem ih =>
    intro attempt t lastErr s res tf sf tr hatt h
    have hne : (attempt == 0) = false := by
      simp only [beq_eq_false_iff_ne, ne_eq]
      omega
    unfold retryStep at h
    split at h
    · simp only [Prod.mk.injEq] at h
      obtain ⟨_, _, _, h4⟩ := h
      subst h4
      simp
    · rename_i hcan
      split at h
      rename_i sel s1 hsel
      split at h
      · rename_i t2 s2 hop
        simp only [Prod.mk.injEq] at h
        obtain ⟨_, _, _, h4⟩ := h
        subst h4
        simp [hne, List.range'_succ]
      · rename_i e t2 s2 hop
        split at h
        rename_i resel s4 hres2
        split at h
        rename_i res0 tf0 sf0 tr0 hrec
        simp only [Prod.mk.injEq] at h
        obtain ⟨_, _, _, h4⟩ := h
        subst h4
        have hrest := ih (attempt + 1) t2 (some e) s4 res0 tf0 sf0 tr0 (by omega) hrec
        show (if (attempt == 0) = true then [] else [backoffOf attempt]) ++ tr0.sleeps
          = (List.range' attempt (some e :: tr0.ops).length).map backoffOf
        rw [hrest]
        simp [hne, List.range'_succ]

theorem retryStep_sleeps_zero {σ : Type} (sys : RetrySys σ) (cancelAt : Option Nat)
    (rem t : Nat) (lastErr : Option String) (s : σ) (res : RetryResult) (tf : Nat) (sf : σ)
    (tr : RetryTrace) (h : retryStep sys cancelAt rem 0 t lastErr s = (res, tf, sf, tr)) :
    tr.sleeps = (List.range' 1 (tr.ops.length - 1)).map backoffOf := by
  cases rem with
  | zero =>
    unfold retryStep at h
    simp only [Prod.mk.injEq] at h
    obtain ⟨_, _, _, h4⟩ := h
    subst h4
    simp
  | succ rem =>
    unfold retryStep at h
    split at h
    · rename_i hcan
      simp [cancelledDuring] at hcan
    · rename_i hcan
      split at h
      rename_i sel s1 hsel
      split at h
      · rename_i t2 s2 hop
        simp only [Prod.mk.injEq] at h
        obtain ⟨_, _, _, h4⟩ := h
        subst h4
        simp
      · rename_i e t2 s2 hop
        split at h
        rename_i resel s4 hres2
        split at h
        rename_i res0 tf0 sf0 tr0 hrec
        simp only [Prod.mk.injEq] at h
        obtain ⟨_, _, _, h4⟩ := h
        subst h4
        have hrest := retryStep_sleeps sys cancelAt rem 1 t2 (some e) s4 res0 tf0 sf0 tr0
          (by omega) hrec
        show (if ((0 : Nat) == 0) = true then [] else [backoffOf 0]) ++ tr0.sleeps
          = (List.range' 1 ((some e :: tr0.ops).length - 1)).map backoffOf
        rw [hrest]
        simp

/-- C3.  `retryWithBackoff` performs at least one and at most 3 attempts;
attempt `k > 1` is preceded by a completed sleep of `500ms * 2^(k-2)`, so
the completed sleeps are exactly the prefix `[500, 1000].take (attempts-1)`
and total at most 1500 ms before final failure; if the context is cancelled
during a backoff sleep the engine returns the cancellation error without
further attempts; and after 3 failed attempts it returns the wrapped error
carrying the last cause produced by the operation. -/
theorem retryWithBackoff_spec {σ : Type} (sys : RetrySys σ) (cancelAt : Option Nat)
    (t0 : Nat) (s : σ) (res : RetryResult) (tf : Nat) (sf : σ) (tr : RetryTrace)
    (h : retryWithBackoff sys cancelAt t0 s = (res, tf, sf, tr)) :
    1 ≤ tr.ops.length ∧ tr.ops.length ≤ 3
    ∧ tr.sleeps = [500, 1000].take (tr.ops.length - 1)
    ∧ tr.sleeps.sum ≤ 1500
    ∧ (res = .ok ↔ tr.ops.getLast? = some none)
    ∧ (∀ e, res = .exhausted e →
        tr.ops.length = 3 ∧ (∀ o ∈ tr.ops, o ≠ none) ∧ tr.ops.getLast? = some (some e))
    ∧ (res = .cancelled → cancelAt ≠ none ∧ tr.ops.length ≤ 2) := by
  obtain ⟨hlen, hsels, hmin, hok, hex, hcan⟩ :=
    retryStep_struct sys cancelAt maxRetries 0 t0 none s res tf sf tr h
  have hmin1 : 1 ≤ tr.ops.length := hmin rfl (by decide)
  have hlen3 : tr.ops.length ≤ 3 := hlen
  have hsleeps := retryStep_sleeps_zero sys cancelAt maxRetries t0 none s res tf sf tr h
  obtain ⟨k, hk, hkle⟩ : ∃ k, tr.ops.length - 1 = k ∧ k ≤ 2 := ⟨_, rfl, by omega⟩
  rw [hk] at hsleeps
  have hform : tr.sleeps = [500, 1000].take k := by
    rw [hsleeps]
    interval_cases k <;> decide
  refine ⟨hmin1, hlen3, by rw [hk]; exact hform, ?_, hok, ?_, ?_⟩
  · rw [hform]
    interval_cases k <;> decide
  · intro e he
    obtain ⟨hl, hmem, hdisj⟩ := hex e he
    refine ⟨hl, hmem, ?_⟩
    rcases hdisj with ⟨hnil, _⟩ | hlast
    · rw [hnil] at hl
      simp [maxRetries] at hl
    · exact hlast
  · intro hc
    obtain ⟨hne, hlt⟩ := hcan hc
    exact ⟨hne, by unfold maxRetries at hlt; omega⟩

/-- A retry system whose selection always yields the same endpoint and whose
operation always fails: used as the `retryWithBackoff_spec` witness. -/
def sysW : RetrySys Unit :=
  ⟨fun s => (some "https://a", s), fun _ _ s => s, fun t s => (some "boom", t, s)⟩

/-- The trace produced by `retryWithBackoff sysW none 0 ()`. -/
def trW : RetryTrace :=
  ⟨[500, 1000],
   [some "https://a", some "https://a", some "https://a"],
   [some "boom", some "boom", some "boom"],
   [("https://a", "boom"), ("https://a", "boom"), ("https://a", "boom")],
   [some "https://a", some "https://a", some "https://a"]⟩

/-- Witness for `retryWithBackoff_spec` on a concrete always-failing run. -/
theorem retryWithBackoff_spec_witness :
    retryWithBackoff sysW none 0 () = (.exhausted "boom", 1500, (), trW)
    ∧ (1 ≤ trW.ops.length ∧ trW.ops.length ≤ 3
      ∧ trW.sleeps = [500, 1000].take (trW.ops.length - 1)
      ∧ trW.sleeps.sum ≤ 1500
      ∧ (RetryResult.exhausted "boom" = .ok ↔ trW.ops.getLast? = some none)
      ∧ (∀ e, RetryResult.exhausted "boom" = .exhausted e →
          trW.ops.length = 3 ∧ (∀ o ∈ trW.ops, o ≠ none) ∧ trW.ops.getLast? = some (some e))
      ∧ (RetryResult.exhausted "boom" = .cancelled
          → (none : Option Nat) ≠ none ∧ trW.ops.length ≤ 2)) :=
  ⟨by decide,
   retryWithBackoff_spec sysW none 0 () (.exhausted "boom") 1500 () trW (by decide)⟩

/-- C10 (implicit).  `retryWithBackoff` never surfaces an endpoint-selection
failure: the client and error returned by `GetClient` before each attempt
are discarded and the operation is invoked anyway — one operation invocation
per selection, even when no healthy endpoint is selectable — and a failing
run returns either the cancellation error or the exhausted error wrapping
the last cause produced by the operation itself, never a selection error. -/
theorem retryWithBackoff_ignores_selection {σ : Type} (sys : RetrySys σ)
    (cancelAt : Option Nat) (t0 : Nat) (s : σ) (res : RetryResult) (tf : Nat) (sf : σ)
    (tr : RetryTrace) (h : retryWithBackoff sys cancelAt t0 s = (res, tf, sf, tr)) :
    tr.sels.length = tr.ops.length
    ∧ (∀ e, res = .exhausted e → tr.ops.getLast? = some (some e))
    ∧ (res = .ok ∨ res = .cancelled ∨ ∃ e, res = .exhausted e) := by
  obtain ⟨hlen, hsels, hmin, hok, hex, hcan⟩ :=
    retryStep_struct sys cancelAt maxRetries 0 t0 none s res tf sf tr h
  have hmin1 : 1 ≤ tr.ops.length := hmin rfl (by decide)
  refine ⟨hsels, ?_, ?_⟩
  · intro e he
    obtain ⟨hl, _, hdisj⟩ := hex e he
    rcases hdisj with ⟨hnil, _⟩ | hlast
    · rw [hnil] at hl
      simp [maxRetries] at hl
    · exact hlast
  · rcases res with _ | _ | e
    · exact Or.inl rfl
    · exact Or.inr (Or.inl rfl)
    · exact Or.inr (Or.inr ⟨e, rfl⟩)

/-- A retry system whose selection always fails (no healthy endpoint) and
whose operation always fails: used as the C10 witness. -/
def sysNoSel : RetrySys Unit :=
  ⟨fun s => (none, s), fun _ _ s => s, fun t s => (some "boom", t, s)⟩

/-- The trace produced by `retryWithBackoff sysNoSel none 0 ()`: selection
fails every time, yet all three operation invocations happen and the final
error wraps the operation's cause. -/
def trNoSel : RetryTrace :=
  ⟨[500, 1000],
   [none, none, none],
   [some "boom", some "boom", some "boom"],
   [("", "boom"), ("", "boom"), ("", "boom")],
   [none, none, none]⟩

/-- Witness for `retryWithBackoff_ignores_selection` with selection failing
at every attempt. -/
theorem retryWithBackoff_ignores_selection_witness :
    retryWithBackoff sysNoSel none 0 () = (.exhausted "boom", 1500, (), trNoSel)
    ∧ (trNoSel.sels.length = trNoSel.ops.length
      ∧ (∀ e, RetryResult.exhausted "boom" = .exhausted e →
          trNoSel.ops.getLast? = some (some e))
      ∧ (RetryResult.exhausted "boom" = .ok ∨ RetryResult.exhausted "boom" = .cancelled
          ∨ ∃ e, RetryResult.exhausted "boom" = .exhausted e)) :=
  ⟨by decide,
   retryWithBackoff_ignores_selection sysNoSel none 0 () (.exhausted "boom") 1500 () trNoSel
     (by decide)⟩

/-! ## The end-to-end failover scenario (C4)

`GetTokenBalance` (internal/blockchain/token.go) obtains a client once at
entry — `ethClient, _, err := c.failoverClient.GetClient()` — and binds the
contract to it: `bind.NewBoundContract(tokenAddr, parsedABI, ethClient,
ethClient, ethClient)`.  The closure handed to `retryWithBackoff` calls
`contract.Call(...)`, which always goes through that bound `ethClient`.
`retryWithBackoff` itself discards the client returned by its own
`GetClient` calls (`_, currentURL, _ = ...`), so re-selection never changes
the endpoint the RPC call actually uses.

In the scenario below the pool is `[A, B]`, both initially healthy, `A`
refusing every call and `B` able to serve; the closure is bound to `A`'s
handle obtained at entry, so `runOp` always fails with `A`'s connection
error regardless of the pool state. -/

def epA : Endpoint := ⟨"https://a", some 1, true, none, 0⟩
def epB : Endpoint := ⟨"https://b", some 2, true, none, 0⟩
def poolAB : Pool := ⟨[epA, epB], 0⟩

/-- The retry system seen by `retryWithBackoff` inside `GetTokenBalance` in
the scenario: selection and marking act on the real pool; the operation is
the closure bound at entry to endpoint A's handle, and A refuses every
call. -/
def scenarioSys : RetrySys Pool :=
  { getClient := fun p =>
      ((GetClient 0 (fun _ => none) p).1.map (fun x => x.2), (GetClient 0 (fun _ => none) p).2)
    markUnhealthy := fun url err p => MarkUnhealthy 0 url err p
    runOp := fun t p => (some "connection refused", t, p) }

/-- C4 (code bug).  With endpoints `[A, B]` where `A` fails every call, the
entry selection hands out `A` and the contract is bound to `A`'s handle;
after the first failure the re-selection does hand back `B` (second
selected URL below), but every one of the three RPC invocations still runs
through the `A`-bound closure, the second failure is charged to `B` —
marking the healthy endpoint `B` unhealthy — the third selection finds no
healthy endpoint, and the call exhausts with an error instead of being
served by `B` as the claim (and the spec's scenario, which expects the
observation still to be produced) states. -/
theorem retry_failover_scenario :
    (GetClient 0 (fun _ => none) poolAB).1 = some (1, "https://a")
    ∧ (retryWithBackoff scenarioSys none 0 poolAB).1 = .exhausted "connection refused"
    ∧ (retryWithBackoff scenarioSys none 0 poolAB).2.2.2.sels
        = [some "https://a", some "https://b", none]
    ∧ (retryWithBackoff scenarioSys none 0 poolAB).2.2.2.ops
        = [some "connection refused", some "connection refused", some "connection refused"]
    ∧ (retryWithBackoff scenarioSys none 0 poolAB).2.2.2.marks
        = [("https://a", "connection refused"), ("https://b", "connection refused"),
           ("", "connection refused")]
    ∧ (retryWithBackoff scenarioSys none 0 poolAB).2.2.1.endpoints.map Endpoint.healthy
        = [false, false] := by
  decide

/-! ## Scheduler: `durationToCron` and `ValidateScheduleInterval`
(internal/scheduler/scheduler.go)

Durations are nanosecond counts (`time.Duration`; only non-negative
durations are relevant here).  `int(d.Seconds())`, `int(d.Minutes())` and
`int(d.Hours())` truncate toward zero; for the ranges each branch handles
(below one minute, below one hour, whole hours) the float64 computation is
exact enough that truncation equals the integer division modelled here. -/

def nsPerSecond : Nat := 1000000000
def nsPerMinute : Nat := 60 * nsPerSecond
def nsPerHour : Nat := 3600 * nsPerSecond

def natStr (n : Nat) : String := ⟨natDecimal n⟩

def validSecondIntervals (s : Nat) : Bool :=
  decide (s ∈ ([1, 2, 3, 4, 5, 6, 10, 12, 15, 20, 30] : List Nat))

def validMinuteIntervals (m : Nat) : Bool :=
  decide (m ∈ ([1, 2, 3, 4, 5, 6, 10, 12, 15, 20, 30] : List Nat))

def validHourIntervals (h : Nat) : Bool :=
  decide (h ∈ ([1, 2, 3, 4, 6, 8, 12, 24] : List Nat))

/-- Embeds `durationToCron` after `time.ParseDuration` succeeded, as a
function of the parsed duration in nanoseconds. -/
def durationToCron (ns : Nat) : Except String String :=
  if ns < nsPerMinute then
    if ns / nsPerSecond == 0 || 60 % (ns / nsPerSecond) != 0 then
      .error "second intervals must divide evenly into 60"
    else if !validSecondIntervals (ns / nsPerSecond) then
      .error "second interval is not a standard divisor of 60"
    else .ok ("*/" ++ natStr (ns / nsPerSecond) ++ " * * * * *")
  else if ns < nsPerHour then
    if ns / nsPerMinute == 0 || 60 % (ns / nsPerMinute) != 0 then
      .error "minute intervals must divide evenly into 60"
    else if !validMinuteIntervals (ns / nsPerMinute) then
      .error "minute interval is not a standard divisor of 60"
    else .ok ("*/" ++ natStr (ns / nsPerMinute) ++ " * * * *")
  else if ns % nsPerHour == 0 then
    if ns / nsPerHour == 0 || 24 % (ns / nsPerHour) != 0 then
      .error "hour intervals must divide evenly into 24"
    else if !validHourIntervals (ns / nsPerHour) then
      .error "hour interval is not a standard divisor of 24"
    else .ok ("0 */" ++ natStr (ns / nsPerHour) ++ " * * *")
  else .error "duration must be whole seconds, minutes, or hours"

/-- Go regexp `\s`: `[\t\n\f\r ]`. -/
def isWS (c : Char) : Bool :=
  c == ' ' || c == '\t' || c == '\n' || c == '\x0c' || c == '\x0d'

/-- Splits into maximal whitespace-free runs (`strings.Fields` on the
ASCII whitespace relevant here). -/
def wsFieldsAux : List Char → List Char → List (List Char)
  | [], acc => if acc.isEmpty then [] else [acc.reverse]
  | c :: cs, acc =>
    if isWS c then
      if acc.isEmpty then wsFieldsAux cs [] else acc.reverse :: wsFieldsAux cs []
    else wsFieldsAux cs (c :: acc)

def wsFields (l : List Char) : List (List Char) := wsFieldsAux l []

/-- Embeds the regexp test `^(\S+\s+){4,5}\S+$` of `isCronExpression`:
the string matches exactly when it is non-empty, starts and ends with a
non-space character, and consists of 5 or 6 whitespace-separated fields. -/
def isCronExpression (s : String) : Bool :=
  match s.data with
  | [] => false
  | c :: cs =>
    !isWS c
      && (match (c :: cs).getLast? with
          | some d => !isWS d
          | none => false)
      && ((wsFields (c :: cs)).length == 5 || (wsFields (c :: cs)).length == 6)

/-- Go `time.ParseDuration` unit table (nanoseconds per unit). -/
def unitNs (u : List Char) : Option Nat :=
  if u = "ns".data then some 1
  else if u = "us".data then some 1000
  else if u = "µs".data then some 1000
  else if u = "μs".data then some 1000
  else if u = "ms".data then some 1000000
  else if u = "s".data then some nsPerSecond
  else if u = "m".data then some nsPerMinute
  else if u = "h".data then some nsPerHour
  else none

/-- A character belonging to a unit token: anything that is neither a digit
nor a dot (Go scans the unit until the next digit or dot). -/
def isUnitChar (c : Char) : Bool := !(c.isDigit || c == '.')

/-- Embeds `time.ParseDuration` restricted to unsigned durations with
integer components (the only forms the configuration claims exercise;
fractional components such as "1.5m" are outside this model): one or more
`digits unit` groups, summed. -/
def parseDurComponents : Nat → List Char → Option Nat
  | 0, _ => none
  | _ + 1, [] => some 0
  | fuel + 1, c :: cs =>
    if (c :: cs).takeWhile Char.isDigit = [] then none
    else
      match parseDigits ((c :: cs).takeWhile Char.isDigit),
        unitNs (((c :: cs).dropWhile Char.isDigit).takeWhile isUnitChar) with
      | some v, some mult =>
        (parseDurComponents fuel (((c :: cs).dropWhile Char.isDigit).dropWhile isUnitChar)).map
          (fun acc => v * mult + acc)
      | _, _ => none

def parseGoDuration (s : String) : Option Nat :=
  if s.data = ['0'] then some 0
  else if s.data = [] then none
  else parseDurComponents (s.data.length + 1) s.data

/-- `durationToCron` on the duration string, as the source composes it. -/
def durationToCronStr (s : String) : Except String String :=
  match parseGoDuration s with
  | none => .error "invalid duration format"
  | some ns => durationToCron ns

/-- Embeds `ValidateScheduleInterval`: empty means one-shot mode and is
accepted; a cron-shaped string must have 5 or 6 fields; anything else is
validated as a duration through `durationToCron`. -/
def ValidateScheduleInterval (interval : String) : Except String Unit :=
  if interval = "" then .ok ()
  else if isCronExpression interval then
    if (wsFields interval.data).length == 5 || (wsFields interval.data).length == 6 then .ok ()
    else .error "cron expression must have 5 or 6 fields"
  else (durationToCronStr interval).map (fun _ => ())

/-- C7.  `durationToCron` maps a duration below one minute to the 6-field
cron `*/s * * * * *` exactly when the second count `s` lies in
{1,2,3,4,5,6,10,12,15,20,30}; a duration of at least one minute but below
one hour to `*/m * * * *` exactly when the minute count lies in the same
set; a whole number of hours to `0 */h * * *` exactly when the hour count
lies in {1,2,3,4,6,8,12,24}; every other duration — for example "7m" — is
rejected with an error; a 4-field cron string such as `*/5 * * *` is
rejected by schedule validation (while a 5-field one is accepted), and the
empty interval is accepted as one-shot mode. -/
theorem durationToCron_spec (ns : Nat) :
    (ns < nsPerMinute →
      (validSecondIntervals (ns / nsPerSecond) = true →
        durationToCron ns = .ok ("*/" ++ natStr (ns / nsPerSecond) ++ " * * * * *"))
      ∧ (validSecondIntervals (ns / nsPerSecond) = false →
        ∃ e, durationToCron ns = .error e))
    ∧ (nsPerMinute ≤ ns → ns < nsPerHour →
      (validMinuteIntervals (ns / nsPerMinute) = true →
        durationToCron ns = .ok ("*/" ++ natStr (ns / nsPerMinute) ++ " * * * *"))
      ∧ (validMinuteIntervals (ns / nsPerMinute) = false →
        ∃ e, durationToCron ns = .error e))
    ∧ (nsPerHour ≤ ns → ns % nsPerHour = 0 →
      (validHourIntervals (ns / nsPerHour) = true →
        durationToCron ns = .ok ("0 */" ++ natStr (ns / nsPerHour) ++ " * * *"))
      ∧ (validHourIntervals (ns / nsPerHour) = false →
        ∃ e, durationToCron ns = .error e))
    ∧ (nsPerHour ≤ ns → ns % nsPerHour ≠ 0 → ∃ e, durationToCron ns = .error e)
    ∧ parseGoDuration "7m" = some (7 * nsPerMinute)
    ∧ (∃ e, ValidateScheduleInterval "7m" = .error e)
    ∧ (∃ e, ValidateScheduleInterval "*/5 * * *" = .error e)
    ∧ ValidateScheduleInterval "*/5 * * * *" = .ok ()
    ∧ ValidateScheduleInterval "" = .ok () := by
  refine ⟨?_, ?_, ?_, ?_, by decide,
    ⟨"minute intervals must divide evenly into 60", by rfl⟩,
    ⟨"invalid duration format", by rfl⟩, by rfl, by rfl⟩
  · intro h1
    constructor
    · intro hval
      have hv : ns / nsPerSecond ∈ ([1, 2, 3, 4, 5, 6, 10, 12, 15, 20, 30] : List Nat) := by
        simpa [validSecondIntervals] using hval
      unfold durationToCron
      rw [if_pos h1]
      simp only [List.mem_cons, List.not_mem_nil, or_false] at hv
      rcases hv with h | h | h | h | h | h | h | h | h | h | h <;> rw [h] <;> rfl
    · intro hval
      unfold durationToCron
      rw [if_pos h1]
      rcases hc : (ns / nsPerSecond == 0 || 60 % (ns / nsPerSecond) != 0) with _ | _
      · exact ⟨"second interval is not a standard divisor of 60", by simp [hval]⟩
      · exact ⟨"second intervals must divide evenly into 60", by simp⟩
  · intro h1 h2
    have hno : ¬ ns < nsPerMinute := by omega
    constructor
    · intro hval
      have hv : ns / nsPerMinute ∈ ([1, 2, 3, 4, 5, 6, 10, 12, 15, 20, 30] : List Nat) := by
        simpa [validMinuteIntervals] using hval
      unfold durationToCron
      rw [if_neg hno, if_pos h2]
      simp only [List.mem_cons, List.not_mem_nil, or_false] at hv
      rcases hv with h | h | h | h | h | h | h | h | h | h | h <;> rw [h] <;> rfl
    · intro hval
      unfold durationToCron
      rw [if_neg hno, if_pos h2]
      rcases hc : (ns / nsPerMinute == 0 || 60 % (ns / nsPerMinute) != 0) with _ | _
      · exact ⟨"minute interval is not a standard divisor of 60", by simp [hval]⟩
      · exact ⟨"minute intervals must divide evenly into 60", by simp⟩
  · intro h1 hmod
    have hno1 : ¬ ns < nsPerMinute := by
      unfold nsPerMinute nsPerHour nsPerSecond at *
      omega
    have hno2 : ¬ ns < nsPerHour := by omega
    have hmodb : (ns % nsPerHour == 0) = true := by simp [hmod]
    constructor
    · intro hval
      have hv : ns / nsPerHour ∈ ([1, 2, 3, 4, 6, 8, 12, 24] : List Nat) := by
        simpa [validHourIntervals] using hval
      unfold durationToCron
      rw [if_neg hno1, if_neg hno2, hmodb]
      simp only [if_true]
      simp only [List.mem_cons, List.not_mem_nil, or_false] at hv
      rcases hv with h | h | h | h | h | h | h | h <;> rw [h] <;> rfl
    · intro hval
      unfold durationToCron
      rw [if_neg hno1, if_neg hno2, hmodb]
      simp only [if_true]
      rcases hc : (ns / nsPerHour == 0 || 24 % (ns / nsPerHour) != 0) with _ | _
      · exact ⟨"hour interval is not a standard divisor of 24", by simp [hval]⟩
      · exact ⟨"hour intervals must divide evenly into 24", by simp⟩
  · intro h1 hmod
    have hno1 : ¬ ns < nsPerMinute := by
      unfold nsPerMinute nsPerHour nsPerSecond at *
      omega
    have hno2 : ¬ ns < nsPerHour := by omega
    have hmodb : (ns % nsPerHour == 0) = false := by simp [hmod]
    refine ⟨"duration must be whole seconds, minutes, or hours", ?_⟩
    unfold durationToCron
    rw [if_neg hno1, if_neg hno2, hmodb]
    simp

/-- Witness for `durationToCron_spec` at the 5-minute duration. -/
theorem durationToCron_spec_witness :
    nsPerMinute ≤ 5 * nsPerMinute ∧ 5 * nsPerMinute < nsPerHour
    ∧ validMinuteIntervals (5 * nsPerMinute / nsPerMinute) = true
    ∧ durationToCron (5 * nsPerMinute)
        = .ok ("*/" ++ natStr (5 * nsPerMinute / nsPerMinute) ++ " * * * *") :=
  ⟨by decide, by decide, by decide,
   ((durationToCron_spec (5 * nsPerMinute)).2.1 (by decide) (by decide)).1 (by decide)⟩

/-! ## Token query client `GetTokenBalance` (internal/blockchain/token.go)

The function obtains a client once at entry (failure: the "no RPC endpoint
available" error), then creates ONE context with a 10-second deadline —
`rpcCtx, cancel := context.WithTimeout(ctx, rpcTimeout)` — and wraps each
of the three ERC-20 calls (`balanceOf`, `decimals`, `symbol`) in
`c.retryWithBackoff(rpcCtx, ...)`; all three retry invocations share that
single deadline.  `result.Decimals` is set to `token.FallbackDecimals`
before the `decimals()` call and overwritten only on success; a `balanceOf`
or `symbol` failure is fatal to the observation; the balance string is
`HumanBalance(rawBalance, decimals)`.

Timed model: the caller's context carries no earlier deadline, so the
shared deadline is `D = 10000` ms after entry.  A contract call's behaviour
is a schedule: `out k` is the outcome of its `k`-th invocation and `dur k`
that invocation's duration; an invocation that would run past the deadline
(or starts at or after it) returns the context error at the deadline. -/

def rpcTimeoutMs : Nat := 10000

structure CallSchedule where
  out : Nat → Option String
  dur : Nat → Nat

/-- The retry system of one contract call under deadline `D`: the selected
URL is irrelevant to this claim, and the state is the invocation counter. -/
def callSys (D : Nat) (sched : CallSchedule) : RetrySys Nat :=
  { getClient := fun k => (some "url", k)
    markUnhealthy := fun _ _ k => k
    runOp := fun t k =>
      if t + sched.dur k < D then (sched.out k, t + sched.dur k, k + 1)
      else (some "context deadline exceeded", max t D, k + 1) }

structure GtbEnv where
  entryOk : Bool
  balanceOf : CallSchedule
  decimals : CallSchedule
  symbol : CallSchedule
  balanceVal : Nat
  decimalsVal : Nat
  symbolVal : String

/-- The `balanceOf` retry (first call, starts at entry time 0). -/
def balancePhase (env : GtbEnv) : RetryResult × Nat × Nat × RetryTrace :=
  retryWithBackoff (callSys rpcTimeoutMs env.balanceOf) (some rpcTimeoutMs) 0 0

/-- The `decimals` retry; it starts when `balanceOf` finished and runs
under the same shared deadline. -/
def decimalsPhase (env : GtbEnv) : RetryResult × Nat × Nat × RetryTrace :=
  retryWithBackoff (callSys rpcTimeoutMs env.decimals) (some rpcTimeoutMs)
    (balancePhase env).2.1 0

/-- The `symbol` retry; it starts when the `decimals` retry finished
(successfully or not) and runs under the same shared deadline. -/
def symbolPhase (env : GtbEnv) : RetryResult × Nat × Nat × RetryTrace :=
  retryWithBackoff (callSys rpcTimeoutMs env.symbol) (some rpcTimeoutMs)
    (decimalsPhase env).2.1 0

/-- Embeds `GetTokenBalance`; the result carries
`(rawBalance, decimals, symbol, balance)`. -/
def GetTokenBalance (env : GtbEnv) (fallbackDecimals : Nat) :
    Except String (Nat × Nat × String × String) :=
  if !env.entryOk then .error "no RPC endpoint available"
  else
    match (balancePhase env).1 with
    | .ok =>
      match (symbolPhase env).1 with
      | .ok =>
        .ok (env.balanceVal,
          (match (decimalsPhase env).1 with
            | .ok => env.decimalsVal
            | _ => fallbackDecimals),
          env.symbolVal,
          HumanBalance env.balanceVal
            (match (decimalsPhase env).1 with
              | .ok => env.decimalsVal
              | _ => fallbackDecimals))
      | _ => .error "symbol"
    | _ => .error "balanceOf"

/-- Modelled from the spec's words, for comparison with the source: "each
call is wrapped by the Retry engine under a 10-second per-call deadline
derived from ctx" — every call gets a fresh 10-second deadline at its own
start. -/
def balancePhasePerCall (env : GtbEnv) : RetryResult × Nat × Nat × RetryTrace :=
  retryWithBackoff (callSys (0 + rpcTimeoutMs) env.balanceOf) (some (0 + rpcTimeoutMs)) 0 0

def decimalsPhasePerCall (env : GtbEnv) : RetryResult × Nat × Nat × RetryTrace :=
  retryWithBackoff (callSys ((balancePhasePerCall env).2.1 + rpcTimeoutMs) env.decimals)
    (some ((balancePhasePerCall env).2.1 + rpcTimeoutMs)) (balancePhasePerCall env).2.1 0

def symbolPhasePerCall (env : GtbEnv) : RetryResult × Nat × Nat × RetryTrace :=
  retryWithBackoff (callSys ((decimalsPhasePerCall env).2.1 + rpcTimeoutMs) env.symbol)
    (some ((decimalsPhasePerCall env).2.1 + rpcTimeoutMs)) (decimalsPhasePerCall env).2.1 0

/-- The spec-worded variant of `GetTokenBalance` with per-call deadlines. -/
def GetTokenBalancePerCall (env : GtbEnv) (fallbackDecimals : Nat) :
    Except String (Nat × Nat × String × String) :=
  if !env.entryOk then .error "no RPC endpoint available"
  else
    match (balancePhasePerCall env).1 with
    | .ok =>
      match (symbolPhasePerCall env).1 with
      | .ok =>
        .ok (env.balanceVal,
          (match (decimalsPhasePerCall env).1 with
            | .ok => env.decimalsVal
            | _ => fallbackDecimals),
          env.symbolVal,
          HumanBalance env.balanceVal
            (match (decimalsPhasePerCall env).1 with
              | .ok => env.decimalsVal
              | _ => fallbackDecimals))
      | _ => .error "symbol"
    | _ => .error "balanceOf"

/-- The environment separating the shared deadline from per-call deadlines:
`balanceOf` succeeds after 9.8 s, `decimals` fails instantly on every
attempt, `symbol` succeeds in 10 ms. -/
def envC8 : GtbEnv :=
  { entryOk := true
    balanceOf := ⟨fun _ => none, fun _ => 9800⟩
    decimals := ⟨fun _ => some "boom", fun _ => 0⟩
    symbol := ⟨fun _ => none, fun _ => 10⟩
    balanceVal := 15
    decimalsVal := 18
    symbolVal := "USDC" }

/-- Counterexample to C8 as stated: under the code's single shared
10-second deadline the `symbol` call starts after the deadline (9.8 s of
`balanceOf` plus the cancelled `decimals` backoff) and the whole
observation fails, while with a per-call deadline as the claim words it the
observation succeeds with the fallback decimals — so the deadline is not
per-call. -/
theorem getTokenBalance_shared_deadline_counterexample :
    GetTokenBalance envC8 1 = .error "symbol"
    ∧ GetTokenBalancePerCall envC8 1 = .ok (15, 1, "USDC", "1.5")
    ∧ GetTokenBalance envC8 1 ≠ GetTokenBalancePerCall envC8 1 := by
  refine ⟨by decide, by decide, ?_⟩
  intro h
  rw [show GetTokenBalance envC8 1 = .error "symbol" from by decide,
    show GetTokenBalancePerCall envC8 1 = .ok (15, 1, "USDC", "1.5") from by decide] at h
  exact absurd h (by decide)

/-- C8 (amended).  `GetTokenBalance` wraps each of the three ERC-20 calls
in the retry engine under one 10-second deadline derived from the caller's
context at entry and shared by all three calls; if `decimals()` fails after
retry exhaustion (or cancellation) the observation's decimals field takes
`token_cfg.fallback_decimals`, the operation continues and the balance
string is computed with that fallback; a `balanceOf` or `symbol` failure
after retries fails the whole observation. -/
theorem getTokenBalance_spec (env : GtbEnv) (fb : Nat) :
    (env.entryOk = false → GetTokenBalance env fb = .error "no RPC endpoint available")
    ∧ (env.entryOk = true → (balancePhase env).1 ≠ .ok →
        GetTokenBalance env fb = .error "balanceOf")
    ∧ (env.entryOk = true → (balancePhase env).1 = .ok → (symbolPhase env).1 ≠ .ok →
        GetTokenBalance env fb = .error "symbol")
    ∧ (env.entryOk = true → (balancePhase env).1 = .ok → (symbolPhase env).1 = .ok →
        (decimalsPhase env).1 = .ok →
          GetTokenBalance env fb
            = .ok (env.balanceVal, env.decimalsVal, env.symbolVal,
                HumanBalance env.balanceVal env.decimalsVal))
    ∧ (env.entryOk = true → (balancePhase env).1 = .ok → (symbolPhase env).1 = .ok →
        (decimalsPhase env).1 ≠ .ok →
          GetTokenBalance env fb
            = .ok (env.balanceVal, fb, env.symbolVal, HumanBalance env.balanceVal fb)) := by
  refine ⟨?_, ?_, ?_, ?_, ?_⟩
  · intro hno
    unfold GetTokenBalance
    rw [hno]
    rfl
  · intro hok hbal
    unfold GetTokenBalance
    rw [hok]
    rcases hb : (balancePhase env).1 with _ | _ | e
    · exact absurd hb hbal
    · rfl
    · rfl
  · intro hok hbal hsym
    unfold GetTokenBalance
    rw [hok, hbal]
    rcases hs : (symbolPhase env).1 with _ | _ | e
    · exact absurd hs hsym
    · rfl
    · rfl
  · intro hok hbal hsym hdec
    unfold GetTokenBalance
    rw [hok, hbal, hsym, hdec]
    rfl
  · intro hok hbal hsym hdec
    unfold GetTokenBalance
    rw [hok, hbal, hsym]
    rcases hd : (decimalsPhase env).1 with _ | _ | e
    · exact absurd hd hdec
    · rfl
    · rfl

/-- An environment where all three calls succeed instantly, for the
`getTokenBalance_spec` witness. -/
def envOkW : GtbEnv :=
  { entryOk := true
    balanceOf := ⟨fun _ => none, fun _ => 0⟩
    decimals := ⟨fun _ => some "boom", fun _ => 0⟩
    symbol := ⟨fun _ => none, fun _ => 0⟩
    balanceVal := 15
    decimalsVal := 18
    symbolVal := "USDC" }

/-- Witness for `getTokenBalance_spec`: `decimals` fails, the observation
still succeeds with the fallback decimals and the balance computed from
them. -/
theorem getTokenBalance_spec_witness :
    envOkW.entryOk = true ∧ (balancePhase envOkW).1 = .ok ∧ (symbolPhase envOkW).1 = .ok
    ∧ (decimalsPhase envOkW).1 ≠ .ok
    ∧ GetTokenBalance envOkW 1
        = .ok (envOkW.balanceVal, 1, envOkW.symbolVal, HumanBalance envOkW.balanceVal 1) :=
  ⟨by decide, by decide, by decide, by decide,
   (getTokenBalance_spec envOkW 1).2.2.2.2 (by decide) (by decide) (by decide) (by decide)⟩

end RmmTracker
